import Mathlib

/-!
MiNES2025 schedule viewer: the event pipeline of `script.js`.

A shallow embedding of the data pipeline of `src/MiNES2025/script.js`
(record builder, session attacher, chronological sort, day/type filter,
search) and theorems about it.

JavaScript values are embedded as follows.

* A string is a Lean `String`; the string methods used by the script
  (`split`, `trim`, `includes`) are defined on the list of characters.
* A number is an `Int`; a numeric result that may be `NaN` is an
  `Option Int` with `none` for `NaN`.
* A call that raises a `TypeError` returns `none` in the outer `Option`.
* What the script leaves to the JavaScript engine (`toLowerCase`, the
  `Date` constructor on a text) is a field of `Host`.
-/

namespace SAAGs

/-! ## Strings -/

/-- White space and line terminators, the characters `String.prototype.trim`
and `parseInt` strip. -/
def isJsWhiteSpace (c : Char) : Bool :=
  let n := c.toNat
  n == 0x09 || n == 0x0A || n == 0x0B || n == 0x0C || n == 0x0D || n == 0x20 ||
  n == 0xA0 || n == 0x1680 || (0x2000 ≤ n && n ≤ 0x200A) || n == 0x2028 ||
  n == 0x2029 || n == 0x202F || n == 0x205F || n == 0x3000 || n == 0xFEFF

/-- Characters of `s.trim()`. -/
def trimChars (l : List Char) : List Char :=
  ((l.dropWhile isJsWhiteSpace).reverse.dropWhile isJsWhiteSpace).reverse

/-- The method `s.trim()`. -/
def jsTrim (s : String) : String := String.mk (trimChars s.data)

/-- Segments of `s.split(sep)` for a one-character separator, on characters.
The empty text gives one empty segment, as in JavaScript. -/
def splitChars (sep : Char) : List Char → List (List Char)
  | [] => [[]]
  | c :: cs =>
    if c = sep then [] :: splitChars sep cs
    else
      match splitChars sep cs with
      | [] => [[c]]
      | seg :: segs => (c :: seg) :: segs

/-- The method `s.split(sep)` for a one-character separator. -/
def jsSplit (s : String) (sep : Char) : List String :=
  (splitChars sep s.data).map String.mk

/-- Whether `t` occurs in `s` as a contiguous run, on characters. -/
def includesChars : List Char → List Char → Bool
  | [], t => t.isEmpty
  | c :: s, t => t.isPrefixOf (c :: s) || includesChars s t

/-- The method `s.includes(t)`. -/
def jsIncludes (s t : String) : Bool := includesChars s.data t.data

/-- Lower-casing of the ASCII letters only; an instance of the engine's
`toLowerCase` for texts without other cased letters. -/
def asciiLower (s : String) : String := String.mk (s.data.map Char.toLower)


/-- One decimal or hexadecimal digit and its value. -/
def digitValue (c : Char) : Option Nat :=
  if '0' ≤ c ∧ c ≤ '9' then some (c.toNat - 48)
  else if 'a' ≤ c ∧ c ≤ 'z' then some (c.toNat - 87)
  else if 'A' ≤ c ∧ c ≤ 'Z' then some (c.toNat - 55)
  else none

/-- Values of the longest run of leading digits that are valid in `radix`. -/
def digitsPrefix (radix : Nat) : List Char → List Nat
  | [] => []
  | c :: cs =>
    match digitValue c with
    | some d => if d < radix then d :: digitsPrefix radix cs else []
    | none => []

/-- The function `parseInt(text)` without a radix argument, on characters:
leading white space is skipped, a sign is read, `0x` selects radix 16, and
the longest run of digits is the value; `none` is `NaN`. The value is the
mathematical integer the digits stand for; `parseInt` returns the double
nearest to it, which is that integer as long as it lies below 2^53 (and is
`Infinity` past some 308 digits), so the two agree for every value below
2^53 and only there. -/
def parseIntChars (l : List Char) : Option Int :=
  let s := l.dropWhile isJsWhiteSpace
  let signed : Bool × List Char :=
    match s with
    | '-' :: r => (true, r)
    | '+' :: r => (false, r)
    | _ => (false, s)
  let based : Nat × List Char :=
    match signed.2 with
    | '0' :: 'x' :: r => (16, r)
    | '0' :: 'X' :: r => (16, r)
    | _ => (10, signed.2)
  match digitsPrefix based.1 based.2 with
  | [] => none
  | d :: ds =>
    let n : Nat := (d :: ds).foldl (fun acc k => acc * based.1 + k) 0
    some (if signed.1 then -(n : Int) else (n : Int))

/-- The function `parseInt(x)` where `x` is a string or `undefined`
(`none`); `undefined` is read as the text "undefined", which is `NaN`. -/
def jsParseInt : Option String → Option Int
  | some s => parseIntChars s.data
  | none => none

/-! ## Cells and the host -/

/-- A native `Date` value as far as the script looks at it: the local hour
and minute (`none` for an Invalid Date, whose getters give `NaN`) and the
text `toString()` gives. -/
structure JsDate where
  clock : Option (Nat × Nat)
  text : String
  deriving DecidableEq, Repr

/-- The value of one spreadsheet cell as the workbook reader hands it over:
absent (`undefined`), a string, a number or a date. -/
inductive Cell where
  | undefined
  | str (s : String)
  | num (n : Int)
  | date (d : JsDate)
  deriving DecidableEq, Repr

/-- JavaScript truthiness of a cell: `undefined`, the empty string and the
number 0 are falsy. -/
def Cell.truthy : Cell → Bool
  | .undefined => false
  | .str s => s != ""
  | .num n => n != 0
  | .date _ => true

/-- The text `x.toString()` gives for a cell that has the method. -/
def Cell.toText : Cell → String
  | .undefined => ""
  | .str s => s
  | .num n => toString n
  | .date d => d.text

/-- What the script leaves to the JavaScript engine. -/
structure Host where
  /-- The method `toLowerCase` of strings. -/
  toLowerCase : String → String
  /-- The method `toUpperCase` of strings. -/
  toUpperCase : String → String
  /-- The time value of `new Date(text)`; `none` is `NaN` (Invalid Date). -/
  parseDate : String → Option Int
  /-- Local hour and minute of `new Date(text)`; `none` for an Invalid Date. -/
  parseClock : String → Option (Nat × Nat)

/-! ## Time normalizer -/

/-- Lines 180-188 of `formatExcelTime`: the 12-hour text of a date whose
hour and minute getters gave `clock` (`none`: both are `NaN`). -/
def formatClock (clock : Option (Nat × Nat)) : String :=
  let hours : Option Nat := clock.map Prod.fst
  let minutes : Option Nat := clock.map Prod.snd
  let ampm : String :=
    match hours with
    | some h => if h ≥ 12 then "PM" else "AM"
    | none => "AM"
  let hours12 : Option Nat := hours.map (fun h => h % 12)
  let hoursShown : String :=
    match hours12 with
    | some h => if h != 0 then toString h else "12"
    | none => "12"
  let minutesStr : String :=
    match minutes with
    | some m => if m < 10 then "0" ++ toString m else toString m
    | none => "NaN"
  hoursShown ++ ":" ++ minutesStr ++ " " ++ ampm

/-- The function `formatExcelTime`. -/
def formatExcelTime (H : Host) (excelTime : Cell) : Cell :=
  if !excelTime.truthy then .str ""
  else
    match excelTime with
    | .str s =>
      if !jsIncludes s "T" then .str s
      else .str (formatClock (H.parseClock s))
    | .date d => .str (formatClock d.clock)
    | other => other

/-- Lines 1108-1118 of `timeToMinutes`: the minute of the day a non-empty
text stands for; `none` is `NaN`. The arithmetic is that of the integers; it
is the script's double arithmetic whenever both fragments parse to numbers
below 10^14 in absolute value (then every intermediate value is below 2^53),
which `exactMinutes` records. -/
def clockMinutes (s : String) : Option Int :=
  let timeParts := jsSplit s ' '
  let hourMin := jsSplit (timeParts.headD "") ':'
  let hour := jsParseInt hourMin.head?
  let minutes := jsParseInt hourMin[1]?
  let isPM : Bool := timeParts[1]? == some "PM"
  let hour24 : Option Int :=
    if !isPM && hour == some 12 then some 0
    else if isPM && hour != some 12 then hour.map (fun h => h + 12)
    else hour
  do
    let h ← hour24
    let m ← minutes
    pure (h * 60 + m)

/-- The function `timeToMinutes`. The outer `Option` is `none` when the call
raises (the argument is truthy and has no `split` method); the inner one is
`none` for `NaN`. -/
def timeToMinutes (timeStr : Cell) : Option (Option Int) :=
  if !timeStr.truthy then some (some 0)
  else
    match timeStr with
    | .str s => some (clockMinutes s)
    | _ => none

/-- A date-time value with local hour `h` and minute `m`: a native date, or
a text with a 'T' that the engine reads as such a date. -/
def IsDateTime (H : Host) (value : Cell) (h m : Nat) : Prop :=
  (∃ text, value = Cell.date { clock := some (h, m), text := text }) ∨
  (∃ s, value = Cell.str s ∧ jsIncludes s "T" = true ∧ H.parseClock s = some (h, m))

/-- The text "{h12}:{mm} {AM|PM}" of the specification for hour `h` and
minute `m`: the hour on the 12-hour clock in decimal digits, the minute in
two digits, and PM from noon on. -/
def clockText (h m : Nat) : String :=
  String.mk (Nat.toDigits 10 (if h % 12 = 0 then 12 else h % 12) ++
    [':', Nat.digitChar (m / 10), Nat.digitChar (m % 10), ' ',
     (if h ≥ 12 then 'P' else 'A'), 'M'])

/-- The hour fragment `timeToMinutes` passes to `parseInt`. -/
def hourFragment (s : String) : Option String :=
  (jsSplit ((jsSplit s ' ').headD "") ':').head?

/-- The minute fragment `timeToMinutes` passes to `parseInt`; `none` is
`undefined`. -/
def minuteFragment (s : String) : Option String :=
  (jsSplit ((jsSplit s ' ').headD "") ':')[1]?

/-- The minute key of a start time value for which the model's integers are
the script's doubles: 0 for a falsy value, and for a text whose hour and
minute fragments both parse to numbers below 10^14 in absolute value the
value `clockMinutes` gives; `none` for every other value. -/
def exactMinutes (x : Cell) : Option Int :=
  if !x.truthy then some 0
  else
    match x with
    | .str s =>
      match jsParseInt (hourFragment s), jsParseInt (minuteFragment s) with
      | some h, some m =>
        if -10 ^ 14 < h ∧ h < 10 ^ 14 ∧ -10 ^ 14 < m ∧ m < 10 ^ 14 then clockMinutes s
        else none
      | _, _ => none
    | _ => none

/-! ## Event records -/

/-- One row of the sheet, by column name. -/
structure RawRow where
  EventFunction : Cell
  EventType : Cell
  TimeStart : Cell
  TimeEnd : Cell
  EventDetails : Cell
  Location : Cell
  PDFLink : Cell
  Date : Cell
  deriving DecidableEq, Repr

/-- The object the record builder returns for one row: the row's own
columns (`...event`) and the derived properties. `PDFLink` is `none` for
`null`. -/
structure Record where
  Event : Cell
  EventType : Cell
  TimeStart : Cell
  TimeEnd : Cell
  EventDetails : Cell
  Location : Cell
  Date : Cell
  EventTypes : List String
  PrimaryEventType : Option String
  IsTicketed : Bool
  IsSession : Bool
  PDFLink : Option Cell
  deriving DecidableEq, Repr

/-- A top-level event: the built object and its `sessions` array (empty
when the property was never created). -/
structure EventRecord extends Record where
  sessions : List Record
  deriving DecidableEq, Repr

/-- The operator `a || b` on values that are a string or `undefined`. -/
def jsOr (a b : Option String) : Option String :=
  match a with
  | some t => if t != "" then some t else b
  | none => b

/-- The array `eventTypes` of the record builder (line 83); `none` when the
cell is truthy and has no `split` method, so that the call raises. -/
def eventTypesOf (cell : Cell) : Option (List String) :=
  if cell.truthy then
    match cell with
    | .str s => some ((jsSplit s ';').map jsTrim)
    | _ => none
  else some []

/-- The callback of `events.map` (lines 82-99): the record builder. -/
def buildRecord (H : Host) (event : RawRow) : Option Record := do
  let eventTypes ← eventTypesOf event.EventType
  let primaryEventType :=
    jsOr (eventTypes.find? (fun t => t != "Ticketed Event")) eventTypes.head?
  let isTicketed := eventTypes.contains "Ticketed Event"
  let isSession : Bool := primaryEventType == some "Session"
  pure {
    Event := event.EventFunction
    EventType := event.EventType
    TimeStart := formatExcelTime H event.TimeStart
    TimeEnd := formatExcelTime H event.TimeEnd
    EventDetails := event.EventDetails
    Location := event.Location
    Date := event.Date
    EventTypes := eventTypes
    PrimaryEventType := primaryEventType
    IsTicketed := isTicketed
    IsSession := isSession
    PDFLink := if event.PDFLink.truthy then some event.PDFLink else none }

/-! ## Session attacher -/

/-- The effect of `currentParent.sessions.push(event)` when `currentParent`
refers to the object at index `i` of the list. -/
def pushSession (event : Record) : Nat → List EventRecord → List EventRecord
  | _, [] => []
  | 0, p :: ps => { p with sessions := p.sessions ++ [event] } :: ps
  | i + 1, p :: ps => p :: pushSession event i ps

/-- The two variables of the attacher loop; `currentParent` is the index in
`processedEvents` of the object the variable refers to, `none` for `null`. -/
structure AttachState where
  processedEvents : List EventRecord
  currentParent : Option Nat
  deriving DecidableEq, Repr

/-- The callback of `events.forEach` (lines 105-119). -/
def attachStep (st : AttachState) (event : Record) : AttachState :=
  if event.IsSession then
    match st.currentParent with
    | some i => { st with processedEvents := pushSession event i st.processedEvents }
    | none => st
  else
    { processedEvents := st.processedEvents ++ [{ toRecord := event, sessions := [] }]
      currentParent := some st.processedEvents.length }

/-- Lines 101-122: the session attacher. -/
def attachSessions (events : List Record) : List EventRecord :=
  (events.foldl attachStep { processedEvents := [], currentParent := none }).processedEvents

/-- The attacher described by position, as the specification words it: a
session is skipped (it belongs to the record before it, or to none), and a
record that is not a session takes the run of sessions right after it. -/
def attachFrom : List Record → List EventRecord
  | [] => []
  | r :: rs =>
    if r.IsSession then attachFrom rs
    else { toRecord := r, sessions := rs.takeWhile (fun x => x.IsSession) } :: attachFrom rs

/-! ## Chronological sort -/

/-- The time value of `new Date(d.split(',')[1] + ',' + d.split(',')[0])`
for the `Date` property `d`; the outer `none` when `d` has no `split`. -/
def dateKey (H : Host) (d : Cell) : Option (Option Int) :=
  match d with
  | .str s =>
    let parts := jsSplit s ','
    some (H.parseDate ((parts[1]?).getD "undefined" ++ "," ++ parts.headD ""))
  | _ => none

/-- The comparator of `events.sort` (lines 125-136); the inner `none` is a
`NaN` result. -/
def compareEvents (H : Host) (a b : EventRecord) : Option (Option Int) := do
  let dateA ← dateKey H a.Date
  let dateB ← dateKey H b.Date
  match dateA, dateB with
  | some x, some y =>
    if x ≠ y then pure (some (x - y))
    else do
      let ta ← timeToMinutes a.TimeStart
      let tb ← timeToMinutes b.TimeStart
      pure (do
        let m ← ta
        let n ← tb
        pure (m - n))
  | _, _ => pure none

/-- Whether a comparator result puts its first argument after the second:
a positive number; `NaN` counts as 0. -/
def isPositive : Option Int → Bool
  | some v => decide (0 < v)
  | none => false

/-- Insertion of `a` before the first element it does not come after. -/
def orderedInsert {α : Type} (cmp : α → α → Option (Option Int)) (a : α) :
    List α → Option (List α)
  | [] => some [a]
  | b :: l => do
    let v ← cmp a b
    if isPositive v then
      let rest ← orderedInsert cmp a l
      pure (b :: rest)
    else pure (a :: b :: l)

/-- The method `Array.prototype.sort` with a comparator that may raise. The
language leaves the sequence of comparator calls to the engine; a stable
insertion sort stands for it, which returns the list every engine returns
when the comparator is a consistent ordering. -/
def jsSort {α : Type} (cmp : α → α → Option (Option Int)) : List α → Option (List α)
  | [] => some []
  | a :: l => do
    let sorted ← jsSort cmp l
    orderedInsert cmp a sorted

/-- The comparator of `dayEvents.sort` in `renderSchedule` (lines 564-566):
the difference of the start minutes; the inner `none` is `NaN`. -/
def compareTimes (a b : EventRecord) : Option (Option Int) := do
  let ta ← timeToMinutes a.TimeStart
  let tb ← timeToMinutes b.TimeStart
  pure (do
    let m ← ta
    let n ← tb
    pure (m - n))

/-- Lines 540 and 564-566 of `renderSchedule`: the events of the visible list
whose `Date` is the day label `day`, in the order in which the day's section
shows them. -/
def dayEvents (filteredEvents : List EventRecord) (day : String) :
    Option (List EventRecord) :=
  jsSort compareTimes (filteredEvents.filter (fun event => event.Date == Cell.str day))

/-- Two events in the order of their start minutes, both keys being ones the
model computes as the script does. -/
def MinutesLe (a b : EventRecord) : Prop :=
  ∃ ma mb : Int, exactMinutes a.TimeStart = some ma ∧ exactMinutes b.TimeStart = some mb ∧
    ma ≤ mb

/-- The method `Array.prototype.map` with a callback that may raise: the
first call that raises ends the whole map. -/
def mapRaising {α β : Type} (f : α → Option β) : List α → Option (List β)
  | [] => some []
  | a :: l => do
    let b ← f a
    let bs ← mapRaising f l
    pure (b :: bs)

/-- The sort key (parsedDate, startMinutes) of an event, when its date label
has a `split` method and parses to a valid date and its start time gives a
number of minutes. -/
def sortKey (H : Host) (e : EventRecord) : Option (Int × Int) :=
  match dateKey H e.Date, timeToMinutes e.TimeStart with
  | some (some d), some (some m) => some (d, m)
  | _, _ => none

/-- The lexicographic order on sort keys: the date first, then the minutes. -/
def keyLe (a b : Int × Int) : Prop := a.1 < b.1 ∨ (a.1 = b.1 ∧ a.2 ≤ b.2)

/-- Two events in chronological order: both have a sort key and the first
key is not after the second. -/
def ChronoLe (H : Host) (a b : EventRecord) : Prop :=
  ∃ ka kb, sortKey H a = some ka ∧ sortKey H b = some kb ∧ keyLe ka kb

/-- Lines 82-136 of `fetchScheduleData`: record builder, session attacher
and chronological sort; `none` when a step raises, which the enclosing
`try` turns into the error display. -/
def buildPipeline (H : Host) (rows : List RawRow) : Option (List EventRecord) := do
  let events ← mapRaising (buildRecord H) rows
  jsSort (compareEvents H) (attachSessions events)

/-! ## Filter state, day/type filter and search -/

/-- The object saved in `prevFilterState` when search is opened. -/
structure PrevFilterState where
  selectedDay : Option String
  selectedEventTypes : List String
  filteredEvents : List EventRecord
  deriving DecidableEq, Repr

/-- The state variables of the script that the filter and search functions
read and write, and the text of the search box. `selectedDay` is `none` for
`null`; the set `selectedEventTypes` is the list of its members. -/
structure UIState where
  events : List EventRecord
  filteredEvents : List EventRecord
  selectedDay : Option String
  selectedEventTypes : List String
  isSearchActive : Bool
  prevFilterState : Option PrevFilterState
  searchInput : String
  deriving DecidableEq, Repr

/-- The day step (lines 327-329 and 455-457): under `if (selectedDay)`, keep
the events whose `Date` is strictly equal to the selected day. -/
def filterByDay (selectedDay : Option String) (l : List EventRecord) : List EventRecord :=
  match selectedDay with
  | some day => if day != "" then l.filter (fun event => event.Date == Cell.str day) else l
  | none => l

/-- The type step (lines 332-336 and 460-464): under
`if (selectedEventTypes.size > 0)`, keep the events one of whose
`EventTypes` is in the set. -/
def filterByType (selectedEventTypes : List String) (l : List EventRecord) :
    List EventRecord :=
  if selectedEventTypes.length > 0 then
    l.filter (fun event => event.EventTypes.any (fun type => selectedEventTypes.contains type))
  else l

/-- The function `applyFilters`. -/
def applyFilters (s : UIState) : UIState :=
  { s with filteredEvents := filterByType s.selectedEventTypes (filterByDay s.selectedDay s.events) }

/-- The test `x && x.toString().toLowerCase().includes(searchTerms)` on one
property of an event. -/
def fieldMatch (H : Host) (searchTerms : String) (x : Cell) : Bool :=
  x.truthy && jsIncludes (H.toLowerCase x.toText) searchTerms

/-- The callback of `event.sessions.some` (lines 489-493). -/
def sessionMatch (H : Host) (searchTerms : String) (session : Record) : Bool :=
  fieldMatch H searchTerms session.Event ||
  fieldMatch H searchTerms session.EventDetails ||
  fieldMatch H searchTerms session.Location

/-- The callback of `baseEvents.filter` (lines 470-498). -/
def eventMatch (H : Host) (searchTerms : String) (event : EventRecord) : Bool :=
  fieldMatch H searchTerms event.Event ||
  fieldMatch H searchTerms event.EventDetails ||
  fieldMatch H searchTerms event.Location ||
  fieldMatch H searchTerms event.EventType ||
  event.sessions.any (sessionMatch H searchTerms)

/-- The search step (lines 467-498). -/
def searchStep (H : Host) (query : String) (l : List EventRecord) : List EventRecord :=
  l.filter (eventMatch H (jsTrim (H.toLowerCase query)))

/-- The function `performSearch`. -/
def performSearch (H : Host) (s : UIState) (query : String) : UIState :=
  if jsTrim query == "" then
    if s.isSearchActive then applyFilters s else s
  else
    { s with
      filteredEvents :=
        searchStep H query (filterByType s.selectedEventTypes (filterByDay s.selectedDay s.events)) }

/-- The shared tail of `setActiveDay` and `toggleEventTypeFilter`
(lines 295-301 and 313-319): recompute the visible list for the current
state. -/
def refresh (H : Host) (s : UIState) : UIState :=
  if s.isSearchActive then performSearch H s s.searchInput else applyFilters s

/-- The terms occur in the lower-cased text of a cell that is searched: the
cell is not absent, not the empty string and not the number 0, and its text
(for a number or a date the text `toString()` gives), lower-cased, is some
text, then the terms, then some text. -/
abbrev SearchedCellHas (H : Host) (terms : String) (x : Cell) : Prop :=
  x ≠ Cell.undefined ∧ x ≠ Cell.str "" ∧ x ≠ Cell.num 0 ∧
  terms.data <:+: (H.toLowerCase x.toText).data

/-- The terms occur in the title, details, location or raw type cell of the
event, or in the title, details or location cell of one of its sessions. -/
abbrev SearchHit (H : Host) (terms : String) (e : EventRecord) : Prop :=
  SearchedCellHas H terms e.Event ∨ SearchedCellHas H terms e.EventDetails ∨
  SearchedCellHas H terms e.Location ∨ SearchedCellHas H terms e.EventType ∨
  ∃ x ∈ e.sessions, SearchedCellHas H terms x.Event ∨
    SearchedCellHas H terms x.EventDetails ∨ SearchedCellHas H terms x.Location

/-- The terms occur in the lower-cased text of a cell that is present,
whatever it holds. -/
abbrev PresentCellHas (H : Host) (terms : String) (x : Cell) : Prop :=
  x ≠ Cell.undefined ∧ terms.data <:+: (H.toLowerCase x.toText).data

/-- The match over every present cell, without regard to what it holds. -/
abbrev PresentHit (H : Host) (terms : String) (e : EventRecord) : Prop :=
  PresentCellHas H terms e.Event ∨ PresentCellHas H terms e.EventDetails ∨
  PresentCellHas H terms e.Location ∨ PresentCellHas H terms e.EventType ∨
  ∃ x ∈ e.sessions, PresentCellHas H terms x.Event ∨
    PresentCellHas H terms x.EventDetails ∨ PresentCellHas H terms x.Location

/-- A white space character of ECMAScript (white space or line terminator):
TAB, LF, VT, FF, CR, SPACE, NO-BREAK SPACE, OGHAM SPACE MARK, one of the
spaces EN QUAD to HAIR SPACE, LINE SEPARATOR, PARAGRAPH SEPARATOR, NARROW
NO-BREAK SPACE, MEDIUM MATHEMATICAL SPACE, IDEOGRAPHIC SPACE or ZERO WIDTH
NO-BREAK SPACE. -/
def IsWhite (c : Char) : Prop :=
  c.toNat ∈ [0x09, 0x0A, 0x0B, 0x0C, 0x0D, 0x20, 0xA0, 0x1680] ∨
  (0x2000 ≤ c.toNat ∧ c.toNat ≤ 0x200A) ∨
  c.toNat ∈ [0x2028, 0x2029, 0x202F, 0x205F, 0x3000, 0xFEFF]

/-- The text `t` is the segment `seg` without its leading and trailing white
space: `seg` is white space, then `t`, then white space, and `t` neither
starts nor ends with a white space character. -/
def IsTrimOf (seg t : List Char) : Prop :=
  ∃ pre post : List Char, seg = pre ++ t ++ post ∧
    (∀ c ∈ pre, IsWhite c) ∧ (∀ c ∈ post, IsWhite c) ∧
    (∀ c, t.head? = some c → ¬ IsWhite c) ∧ (∀ c, t.getLast? = some c → ¬ IsWhite c)

/-- The first element of a tag list that is not "Ticketed Event", and the
first element when there is none: the specification's `primaryType`. -/
def specPrimaryType (eventTypes : List String) : Option String :=
  match eventTypes.find? (fun t => t != "Ticketed Event") with
  | some t => some t
  | none => eventTypes.head?

/-! ## Event type buttons -/

/-- The UTF-16 code units of a character. -/
def utf16Units (c : Char) : List Nat :=
  if c.toNat < 0x10000 then [c.toNat]
  else [0xD800 + (c.toNat - 0x10000) / 0x400, 0xDC00 + (c.toNat - 0x10000) % 0x400]

/-- The UTF-16 code units of a string, the sequence JavaScript compares. -/
def codeUnits (s : String) : List Nat := s.data.flatMap utf16Units

/-- The comparison `x < y` of two strings as sequences of code units: the
first position where they differ decides, and a proper prefix comes first. -/
def unitsLt : List Nat → List Nat → Bool
  | _, [] => false
  | [], _ :: _ => true
  | a :: as, b :: bs => decide (a < b) || (a == b && unitsLt as bs)

/-- The comparison `Array.prototype.sort` uses without a comparator, on
strings. -/
def defaultCompare (x y : String) : Option (Option Int) :=
  some (some (if unitsLt (codeUnits x) (codeUnits y) then -1
    else if unitsLt (codeUnits y) (codeUnits x) then 1 else 0))

/-- The method `Set.prototype.add` on a set kept as the list of its members
in insertion order. -/
def setAdd (set : List String) (x : String) : List String :=
  if set.contains x then set else set ++ [x]

/-- Lines 235-240 of `createEventTypeButtons`: the set `allEventTypes`. -/
def allEventTypes (events : List EventRecord) : List String :=
  events.foldl (fun set event =>
    event.EventTypes.foldl (fun set type =>
      if type != "" && type != "Session" then setAdd set type else set) set) []

/-- Line 242 of `createEventTypeButtons`: the array `uniqueEventTypes`, the
labels of the type buttons in order. -/
def uniqueEventTypes (events : List EventRecord) : Option (List String) :=
  jsSort defaultCompare (allEventTypes events)

/-- Alphabetical order, the case of letters aside: `a` is not after `b` when
both are compared in lower case. -/
abbrev AlphabeticalLe (a b : String) : Prop :=
  unitsLt (codeUnits (asciiLower b)) (codeUnits (asciiLower a)) = false

/-- The segments written one after another with `sep` between neighbours:
the text of which the segments are the split. -/
def joinWith (sep : Char) : List (List Char) → List Char
  | [] => []
  | [x] => x
  | x :: y :: rest => x ++ sep :: joinWith sep (y :: rest)

/-! ## Search handlers -/

/-- The function `clearSearch`: the search box is emptied, search is closed,
and when a state was saved the day and the type set are set back to it (the
set as a copy, `new Set(...)`) and `applyFilters` runs. -/
def clearSearch (s : UIState) : UIState :=
  let closed : UIState := { s with searchInput := "", isSearchActive := false }
  match closed.prevFilterState with
  | some prev =>
    applyFilters { closed with
      selectedDay := prev.selectedDay
      selectedEventTypes := prev.selectedEventTypes }
  | none => closed

/-- The function `toggleSearch`: when search is closed the day, a copy of the
type set and a copy of the visible list are saved and search is opened; when
it is open it is cleared. -/
def toggleSearch (s : UIState) : UIState :=
  if !s.isSearchActive then
    { s with
      prevFilterState := some
        { selectedDay := s.selectedDay
          selectedEventTypes := s.selectedEventTypes
          filteredEvents := s.filteredEvents }
      isSearchActive := true }
  else clearSearch s

/-- The function `setActiveDay` on the state; `day` is `none` for the
"All Days" button. -/
def setActiveDay (H : Host) (s : UIState) (day : Option String) : UIState :=
  refresh H { s with selectedDay := day }

/-- The function `toggleEventTypeFilter` on the state: the type leaves the
set when it is in it and joins it otherwise. -/
def toggleEventTypeFilter (H : Host) (s : UIState) (eventType : String) : UIState :=
  refresh H { s with
    selectedEventTypes :=
      if s.selectedEventTypes.contains eventType then
        s.selectedEventTypes.filter (fun t => t != eventType)
      else setAdd s.selectedEventTypes eventType }

/-- The `input` listener of the search box (lines 351-353): the box holds the
new text and `performSearch` runs on it. -/
def onSearchInput (H : Host) (s : UIState) (text : String) : UIState :=
  performSearch H { s with searchInput := text } text

/-- What the user can do while search is open, short of closing it. -/
inductive SearchAction where
  | selectDay (day : Option String)
  | toggleType (eventType : String)
  | editQuery (text : String)
  deriving DecidableEq, Repr

/-- The handler that runs for one action. -/
def applyAction (H : Host) (s : UIState) : SearchAction → UIState
  | .selectDay day => setActiveDay H s day
  | .toggleType eventType => toggleEventTypeFilter H s eventType
  | .editQuery text => onSearchInput H s text

/-! ## Sample data -/

/-- Upper-casing of the ASCII letters and of the letter 'ß', which
ECMAScript upper-cases to "SS". -/
def sampleUpper (s : String) : String :=
  String.mk (s.data.flatMap (fun c => if c = 'ß' then ['S', 'S'] else [c.toUpper]))

/-- A host for the sample data: case conversion of ASCII letters and of 'ß',
the swapped day labels " June 2,2025" and " June 3,2025" read as V8 reads
them (as time values in UTC), and one ISO date-time text. Every other text is
an Invalid Date, which is what V8 gives for the swapped form of a label such
as "Monday, June 2" or "TBA". -/
def sampleHost : Host :=
  { toLowerCase := asciiLower
    toUpperCase := sampleUpper
    parseDate := fun text =>
      if text == " June 2,2025" then some 1748822400000
      else if text == " June 3,2025" then some 1748908800000
      else none
    parseClock := fun text =>
      if text == "2025-06-02T13:05:00" then some (13, 5) else none }

/-- A row with a type and a title and no other cell. -/
def sampleRow (type title : String) : RawRow :=
  { EventFunction := .str title, EventType := .str type, TimeStart := .undefined,
    TimeEnd := .undefined, EventDetails := .undefined, Location := .undefined,
    PDFLink := .undefined, Date := .undefined }

/-- A row with a type, a title and a day label. -/
def sampleDayRow (type title day : String) : RawRow :=
  { sampleRow type title with Date := .str day }

/-- The three rows of the attacher example of the specification. -/
def exampleRows : List RawRow :=
  [sampleRow "Session" "Talk A", sampleRow "Technical Program" "Morning Block",
   sampleRow "Session" "Talk B"]

/-- A canonical list of two events, one on "Monday, June 2" and one whose
day label is the empty string. -/
def sampleSchedule : List EventRecord :=
  (buildPipeline sampleHost
    [sampleDayRow "Registration" "Desk" "Monday, June 2",
     sampleDayRow "Technical Program" "Collaborative Lab Tour" ""]).getD []

/-- A state that shows `events` whole, with no day and no type selected and
search closed. -/
def initialState (events : List EventRecord) : UIState :=
  { events := events, filteredEvents := events, selectedDay := none,
    selectedEventTypes := [], isSearchActive := false, prevFilterState := none,
    searchInput := "" }

/-- The state in which `day` and the types `types` are selected over
`events` and search is closed. -/
def selectedState (events : List EventRecord) (day : String) (types : List String) :
    UIState :=
  { initialState events with selectedDay := some day, selectedEventTypes := types }

/-- A row with a type, a title, a day label and a start time text. -/
def sampleTimedRow (type title day time : String) : RawRow :=
  { sampleDayRow type title day with TimeStart := .str time }

/-- Two rows with the day label "TBA", which no engine reads as a date, the
later start time first. -/
def unparsedDayRows : List RawRow :=
  [sampleTimedRow "Registration" "Desk" "TBA" "2:00 PM",
   sampleTimedRow "Registration" "Coffee" "TBA" "9:00 AM"]

/-- Three rows with parsed day labels, out of chronological order. -/
def parsedDayRows : List RawRow :=
  [sampleTimedRow "Registration" "Desk" "2025, June 3" "8:00 AM",
   sampleTimedRow "Technical Program" "Keynote" "2025, June 2" "2:00 PM",
   sampleTimedRow "Registration" "Coffee" "2025, June 2" "9:00 AM"]

/-- The rows of `parsedDayRows` after the builder and the attacher, before
the sort. -/
def parsedDayEvents : List EventRecord :=
  attachSessions ((mapRaising (buildRecord sampleHost) parsedDayRows).getD [])

/-- A canonical list of one event, titled "Straße". -/
def sharpSSchedule : List EventRecord :=
  (buildPipeline sampleHost [sampleRow "Technical Program" "Straße"]).getD []

/-- One row whose "Event Type" cell holds the number 7. -/
def numericTypeRows : List RawRow :=
  [{ sampleRow "" "Desk" with EventType := .num 7 }]

/-- Two rows of the day "2025, June 2", the first with the number 930 in
its "Time Start" cell. -/
def numericTimeRows : List RawRow :=
  [{ sampleDayRow "Registration" "Desk" "2025, June 2" with TimeStart := .num 930 },
   sampleTimedRow "Registration" "Coffee" "2025, June 2" "9:00 AM"]

/-- Two rows without a "Date" cell. -/
def missingDateRows : List RawRow :=
  [sampleRow "Registration" "Desk", sampleRow "Registration" "Coffee"]

/-- A canonical list of one event whose "Location" cell holds the number 0. -/
def zeroLocationSchedule : List EventRecord :=
  (buildPipeline sampleHost
    [{ sampleDayRow "Registration" "Desk" "TBA" with Location := .num 0 }]).getD []

/-- A canonical list of one event whose "Location" cell holds the number
101. -/
def numberLocationSchedule : List EventRecord :=
  (buildPipeline sampleHost
    [{ sampleDayRow "Registration" "Desk" "TBA" with Location := .num 101 }]).getD []

/-- A canonical list of three events of the day "TBA": one at 9:00 AM, one
whose start time is the text "noon", one without a start time. -/
def nanTimeSchedule : List EventRecord :=
  (buildPipeline sampleHost
    [sampleTimedRow "Registration" "Coffee" "TBA" "9:00 AM",
     sampleTimedRow "Registration" "Lunch" "TBA" "noon",
     sampleDayRow "Registration" "Desk" "TBA"]).getD []

/-- A canonical list of two events of the day "TBA": one at 9:00 AM and,
after it, one without a start time. -/
def lateFirstSchedule : List EventRecord :=
  (buildPipeline sampleHost
    [sampleTimedRow "Registration" "Coffee" "TBA" "9:00 AM",
     sampleDayRow "Registration" "Desk" "TBA"]).getD []

/-- A canonical list whose events carry the tags alpha, Zeta, Beta and
apple. -/
def mixedCaseSchedule : List EventRecord :=
  (buildPipeline sampleHost
    [sampleDayRow "alpha" "First" "TBA", sampleDayRow "Zeta;Beta" "Second" "TBA",
     sampleDayRow "apple" "Third" "TBA"]).getD []

/-- The example rows as the record builder returns them. -/
def exampleBuilt : List Record :=
  (mapRaising (buildRecord sampleHost) exampleRows).getD []

/-! ## Theorems -/

/-! ### Time normalizer -/

theorem timeToMinutes_formatClock : ∀ h, h < 24 → ∀ m, m < 60 →
    timeToMinutes (Cell.str (formatClock (some (h, m)))) =
      some (some (60 * (h : Int) + (m : Int))) := by
  decide!

theorem formatClock_eq_clockText : ∀ h, h < 24 → ∀ m, m < 60 →
    formatClock (some (h, m)) = clockText h m := by
  decide!

theorem jsIncludes_ne_empty (s t : String) (ht : t ≠ "") (h : jsIncludes s t = true) :
    s ≠ "" := by
  intro e
  subst e
  have hd : t.data ≠ [] := fun e => ht (String.ext e)
  have : includesChars [] t.data = false := by
    cases htd : t.data with
    | nil => exact absurd htd hd
    | cons c cs => rfl
  simp only [jsIncludes] at h
  rw [this] at h
  exact absurd h (by decide)

theorem formatExcelTime_dateTime (H : Host) (value : Cell) (h m : Nat)
    (hv : IsDateTime H value h m) :
    formatExcelTime H value = Cell.str (formatClock (some (h, m))) := by
  rcases hv with ⟨text, hv⟩ | ⟨s, hv, hT, hp⟩
  · subst hv
    simp [formatExcelTime, Cell.truthy]
  · subst hv
    have hne : s ≠ "" := jsIncludes_ne_empty s "T" (by decide) hT
    simp [formatExcelTime, Cell.truthy, hne, hT, hp]

/-- C11: for a date-time value with hour h in 0..23 and minute m in 0..59
the minute key of the formatted time is 60*h + m, which lies in [0, 1439];
of two such values the one earlier in (h, m) gets the smaller key. -/
theorem timeToMinutes_formatExcelTime (H : Host) (v1 v2 : Cell) (h1 m1 h2 m2 : Nat)
    (hh1 : h1 < 24) (hm1 : m1 < 60) (hh2 : h2 < 24) (hm2 : m2 < 60)
    (hv1 : IsDateTime H v1 h1 m1) (hv2 : IsDateTime H v2 h2 m2) :
    timeToMinutes (formatExcelTime H v1) = some (some (60 * (h1 : Int) + (m1 : Int))) ∧
    0 ≤ 60 * (h1 : Int) + (m1 : Int) ∧ 60 * (h1 : Int) + (m1 : Int) ≤ 1439 ∧
    ((h1 < h2 ∨ (h1 = h2 ∧ m1 < m2)) →
      ∃ k1 k2 : Int, timeToMinutes (formatExcelTime H v1) = some (some k1) ∧
        timeToMinutes (formatExcelTime H v2) = some (some k2) ∧ k1 < k2) := by
  have e1 : timeToMinutes (formatExcelTime H v1) = some (some (60 * (h1 : Int) + (m1 : Int))) := by
    rw [formatExcelTime_dateTime H v1 h1 m1 hv1]
    exact timeToMinutes_formatClock h1 hh1 m1 hm1
  have e2 : timeToMinutes (formatExcelTime H v2) = some (some (60 * (h2 : Int) + (m2 : Int))) := by
    rw [formatExcelTime_dateTime H v2 h2 m2 hv2]
    exact timeToMinutes_formatClock h2 hh2 m2 hm2
  refine ⟨e1, by omega, by omega, ?_⟩
  intro hlt
  exact ⟨_, _, e1, e2, by omega⟩

/-- Witness of C11: the native date 9:30 and the ISO text the sample host
reads as 13:05. -/
theorem timeToMinutes_formatExcelTime_witness :
    timeToMinutes (formatExcelTime sampleHost
      (Cell.date { clock := some (9, 30), text := "" })) = some (some 570) ∧
    ∃ k1 k2 : Int,
      timeToMinutes (formatExcelTime sampleHost
        (Cell.date { clock := some (9, 30), text := "" })) = some (some k1) ∧
      timeToMinutes (formatExcelTime sampleHost (Cell.str "2025-06-02T13:05:00")) =
        some (some k2) ∧ k1 < k2 :=
  have h := timeToMinutes_formatExcelTime sampleHost
    (Cell.date { clock := some (9, 30), text := "" }) (Cell.str "2025-06-02T13:05:00")
    9 30 13 5 (by decide) (by decide) (by decide) (by decide)
    (Or.inl ⟨"", rfl⟩) (Or.inr ⟨"2025-06-02T13:05:00", rfl, by decide, by decide⟩)
  ⟨h.1, h.2.2.2 (Or.inl (by decide))⟩

theorem toDigits_no_leading_zero : ∀ k, k < 13 → k ≠ 0 →
    (Nat.toDigits 10 k).head? ≠ some '0' := by
  decide

/-- C12: for a date-time value with hour h in 0..23 and minute m in 0..59
`formatExcelTime` returns "{h12}:{mm} {AM|PM}": h12 is 12 when h mod 12 = 0
and h mod 12 otherwise, lies in [1, 12] and has no leading zero, mm is the
minute in two digits, and the suffix is PM exactly from h = 12 on. -/
theorem formatExcelTime_clockText (H : Host) (value : Cell) (h m : Nat)
    (hh : h < 24) (hm : m < 60) (hv : IsDateTime H value h m) :
    formatExcelTime H value =
      Cell.str (String.mk (Nat.toDigits 10 (if h % 12 = 0 then 12 else h % 12) ++
        [':', Nat.digitChar (m / 10), Nat.digitChar (m % 10), ' ',
         (if h ≥ 12 then 'P' else 'A'), 'M'])) ∧
    1 ≤ (if h % 12 = 0 then 12 else h % 12) ∧ (if h % 12 = 0 then 12 else h % 12) ≤ 12 ∧
    (Nat.toDigits 10 (if h % 12 = 0 then 12 else h % 12)).head? ≠ some '0' := by
  have hb : 1 ≤ (if h % 12 = 0 then 12 else h % 12) ∧
      (if h % 12 = 0 then 12 else h % 12) ≤ 12 := by
    split <;> omega
  refine ⟨?_, hb.1, hb.2, toDigits_no_leading_zero _ (by omega) (by omega)⟩
  rw [formatExcelTime_dateTime H value h m hv, formatClock_eq_clockText h hh m hm]
  rfl

/-- Witness of C12: the native date 0:07 is shown as "12:07 AM" and the ISO
text the sample host reads as 13:05 is shown as "1:05 PM". -/
theorem formatExcelTime_clockText_witness :
    formatExcelTime sampleHost (Cell.date { clock := some (0, 7), text := "" }) =
      Cell.str "12:07 AM" ∧
    formatExcelTime sampleHost (Cell.str "2025-06-02T13:05:00") = Cell.str "1:05 PM" :=
  ⟨(formatExcelTime_clockText sampleHost (Cell.date { clock := some (0, 7), text := "" })
      0 7 (by decide) (by decide) (Or.inl ⟨"", rfl⟩)).1.trans (by decide),
   (formatExcelTime_clockText sampleHost (Cell.str "2025-06-02T13:05:00")
      13 5 (by decide) (by decide)
      (Or.inr ⟨"2025-06-02T13:05:00", rfl, by decide, by decide⟩)).1.trans (by decide)⟩

/-- C13 as stated fails at the number 0: it is neither a string nor a date,
and `formatExcelTime` returns the empty string for it. -/
theorem formatExcelTime_zero_counterexample :
    ¬ (∀ (H : Host) (x : Cell), (∀ s, x ≠ Cell.str s) → (∀ d, x ≠ Cell.date d) →
        formatExcelTime H x = x) := by
  intro h
  have := h sampleHost (Cell.num 0) (by intro s; exact Cell.noConfusion)
    (by intro d; exact Cell.noConfusion)
  exact absurd this (by decide)

/-- C13 amended: `formatExcelTime` is total; a number other than 0 is
returned unchanged, a string without 'T' is returned unchanged, and the
falsy inputs (the number 0, an absent value) give the empty string. -/
theorem formatExcelTime_pass_through (H : Host) :
    (∀ n : Int, n ≠ 0 → formatExcelTime H (Cell.num n) = Cell.num n) ∧
    (∀ s : String, jsIncludes s "T" = false → formatExcelTime H (Cell.str s) = Cell.str s) ∧
    formatExcelTime H (Cell.num 0) = Cell.str "" ∧
    formatExcelTime H Cell.undefined = Cell.str "" := by
  refine ⟨?_, ?_, ?_, ?_⟩
  · intro n hn
    simp [formatExcelTime, Cell.truthy, hn]
  · intro s hs
    by_cases he : s = ""
    · simp [formatExcelTime, Cell.truthy, he]
    · simp [formatExcelTime, Cell.truthy, he, hs]
  · simp [formatExcelTime, Cell.truthy]
  · simp [formatExcelTime, Cell.truthy]

/-- Witness of the amended C13: the number 930 and the text "9:30 AM". -/
theorem formatExcelTime_pass_through_witness :
    formatExcelTime sampleHost (Cell.num 930) = Cell.num 930 ∧
    formatExcelTime sampleHost (Cell.str "9:30 AM") = Cell.str "9:30 AM" :=
  ⟨(formatExcelTime_pass_through sampleHost).1 930 (by decide),
   (formatExcelTime_pass_through sampleHost).2.1 "9:30 AM" (by decide)⟩

theorem clockMinutes_eq (s : String) :
    clockMinutes s =
      (do
        let h ← (if (!((jsSplit s ' ')[1]? == some "PM") &&
              jsParseInt (hourFragment s) == some 12) = true then some 0
            else if ((jsSplit s ' ')[1]? == some "PM" &&
              jsParseInt (hourFragment s) != some 12) = true then
              (jsParseInt (hourFragment s)).map (fun h => h + 12)
            else jsParseInt (hourFragment s))
        let m ← jsParseInt (minuteFragment s)
        pure (h * 60 + m)) := rfl

theorem exactMinutes_eq_some (x : Cell) (k : Int) (h : exactMinutes x = some k) :
    timeToMinutes x = some (some k) := by
  unfold exactMinutes at h
  unfold timeToMinutes
  by_cases ht : x.truthy = true
  · simp only [ht, Bool.not_true, Bool.false_eq_true, if_false] at h ⊢
    cases x with
    | undefined => simp at h
    | num n => simp at h
    | date d => simp at h
    | str s =>
      simp only at h ⊢
      split at h
      · split at h
        · rw [h]
        · simp at h
      · simp at h
  · simp only [ht, Bool.not_false, if_true] at h ⊢
    rw [h]

/-- C14 as stated fails: the text "noon" has no 'T', so `formatExcelTime`
passes it on unchanged, and the result of `timeToMinutes` for it is `NaN`,
not an integer. -/
theorem timeToMinutes_integer_counterexample :
    ¬ (∀ (H : Host) (x : Cell), ∃ k : Int,
        timeToMinutes (formatExcelTime H x) = some (some k)) := by
  intro h
  obtain ⟨k, hk⟩ := h sampleHost (Cell.str "noon")
  have hn : timeToMinutes (formatExcelTime sampleHost (Cell.str "noon")) = some none := by
    decide
  rw [hn] at hk
  exact absurd hk (by simp)

/-- C14 amended: for every string `timeToMinutes` does not raise; its result
is `NaN` when the hour fragment or the minute fragment does not parse as a
number, and when both parse, to numbers below 10^14 in absolute value, it is
the integer 60 * h24 + m, where h24 is the hour on the 24-hour clock (12 with
no "PM" is 0, and "PM" adds 12 to every hour but 12). -/
theorem timeToMinutes_string (s : String) :
    ∃ r : Option Int, timeToMinutes (Cell.str s) = some r ∧
      (s ≠ "" →
        (jsParseInt (hourFragment s) = none ∨ jsParseInt (minuteFragment s) = none) →
        r = none) ∧
      (s ≠ "" → ∀ h m : Int, jsParseInt (hourFragment s) = some h →
        jsParseInt (minuteFragment s) = some m →
        -10 ^ 14 < h → h < 10 ^ 14 → -10 ^ 14 < m → m < 10 ^ 14 →
        r = some ((if (jsSplit s ' ')[1]? = some "PM" then (if h = 12 then 12 else h + 12)
          else (if h = 12 then 0 else h)) * 60 + m)) := by
  by_cases he : s = ""
  · exact ⟨some 0, by simp [timeToMinutes, Cell.truthy, he], fun h => absurd he h,
      fun h => absurd he h⟩
  · refine ⟨clockMinutes s, by simp [timeToMinutes, Cell.truthy, he], ?_, ?_⟩
    · intro _ hfail
      rw [clockMinutes_eq]
      rcases hfail with hf | hf
      · simp [hf]
      · rw [hf]
        cases (if (!((jsSplit s ' ')[1]? == some "PM") &&
              jsParseInt (hourFragment s) == some 12) = true then some 0
            else if ((jsSplit s ' ')[1]? == some "PM" &&
              jsParseInt (hourFragment s) != some 12) = true then
              (jsParseInt (hourFragment s)).map (fun h => h + 12)
            else jsParseInt (hourFragment s)) <;> rfl
    · intro _ h m hh hm _ _ _ _
      rw [clockMinutes_eq, hh, hm]
      by_cases hpm : (jsSplit s ' ')[1]? = some "PM"
      · by_cases h12 : h = 12
        · simp [hpm, h12]
        · simp [hpm, h12]
      · by_cases h12 : h = 12
        · simp [hpm, h12]
        · simp [hpm, h12]

/-- Witness of the amended C14: the text "9:30 PM" gives the integer 1290,
and the text "9:xx PM" gives `NaN`. -/
theorem timeToMinutes_string_witness :
    timeToMinutes (Cell.str "9:30 PM") = some (some 1290) ∧
    timeToMinutes (Cell.str "9:xx PM") = some none := by
  refine ⟨?_, ?_⟩
  · obtain ⟨r, hr, -, hval⟩ := timeToMinutes_string "9:30 PM"
    rw [hr, hval (by decide) 9 30 (by decide) (by decide) (by decide) (by decide)
      (by decide) (by decide)]
    decide
  · obtain ⟨r, hr, hnan, -⟩ := timeToMinutes_string "9:xx PM"
    rw [hr, hnan (by decide) (Or.inr (by decide))]

/-! ### Splitting -/

theorem splitChars_ne_nil (sep : Char) (l : List Char) : splitChars sep l ≠ [] := by
  cases l with
  | nil => simp [splitChars]
  | cons c cs =>
    unfold splitChars
    split
    · simp
    · split <;> simp

theorem splitChars_of_not_mem (sep : Char) (seg : List Char) (h : sep ∉ seg) :
    splitChars sep seg = [seg] := by
  induction seg with
  | nil => rfl
  | cons c cs ih =>
    have hc : c ≠ sep := fun e => h (by simp [e])
    have hcs : sep ∉ cs := fun m => h (List.mem_cons_of_mem _ m)
    simp [splitChars, hc, ih hcs]

theorem splitChars_append_sep (sep : Char) (seg rest : List Char) (h : sep ∉ seg) :
    splitChars sep (seg ++ sep :: rest) = seg :: splitChars sep rest := by
  induction seg with
  | nil => simp [splitChars]
  | cons c cs ih =>
    have hc : c ≠ sep := fun e => h (by simp [e])
    have hcs : sep ∉ cs := fun m => h (List.mem_cons_of_mem _ m)
    simp [splitChars, hc, ih hcs]

theorem splitChars_joinWith (sep : Char) (segs : List (List Char)) (hne : segs ≠ [])
    (h : ∀ seg ∈ segs, sep ∉ seg) : splitChars sep (joinWith sep segs) = segs := by
  induction segs with
  | nil => exact absurd rfl hne
  | cons x rest ih =>
    cases rest with
    | nil => simpa [joinWith] using splitChars_of_not_mem sep x (h x (by simp))
    | cons y rest =>
      have hx : sep ∉ x := h x (by simp)
      have hrest : ∀ seg ∈ y :: rest, sep ∉ seg := fun seg m => h seg (List.mem_cons_of_mem _ m)
      simp only [joinWith]
      rw [splitChars_append_sep sep x _ hx, ih (by simp) hrest]

theorem splitChars_not_mem (sep : Char) (l : List Char) :
    ∀ seg ∈ splitChars sep l, sep ∉ seg := by
  induction l with
  | nil => simp [splitChars]
  | cons c cs ih =>
    unfold splitChars
    split
    · intro seg hseg
      rcases List.mem_cons.1 hseg with e | m
      · simp [e]
      · exact ih seg m
    · rename_i hc
      split
      · intro seg hseg
        have : seg = [c] := by simpa using hseg
        subst this
        simpa using Ne.symm hc
      · rename_i seg0 segs0 heq
        intro seg hseg
        rcases List.mem_cons.1 hseg with e | m
        · subst e
          have h0 : sep ∉ seg0 := ih seg0 (by simp [heq])
          intro hm
          rcases List.mem_cons.1 hm with e | m
          · exact hc e.symm
          · exact h0 m
        · exact ih seg (by simp [heq, m])

theorem joinWith_splitChars (sep : Char) (l : List Char) :
    joinWith sep (splitChars sep l) = l := by
  induction l with
  | nil => rfl
  | cons c cs ih =>
    unfold splitChars
    split
    · rename_i hc
      have hne := splitChars_ne_nil sep cs
      cases hs : splitChars sep cs with
      | nil => exact absurd hs hne
      | cons y rest =>
        rw [hs] at ih
        simp [joinWith, ih, hc]
    · split
      · rename_i heq
        exact absurd heq (splitChars_ne_nil sep cs)
      · rename_i seg0 segs0 heq
        rw [heq] at ih
        cases segs0 with
        | nil => simpa [joinWith] using ih
        | cons y rest => simpa [joinWith] using ih

theorem splitChars_append_singleton (sep : Char) (l : List Char) :
    splitChars sep (l ++ [sep]) = splitChars sep l ++ [[]] := by
  induction l with
  | nil => simp [splitChars]
  | cons c cs ih =>
    by_cases hc : c = sep
    · simp [splitChars, hc, ih]
    · have hne := splitChars_ne_nil sep cs
      cases hs : splitChars sep cs with
      | nil => exact absurd hs hne
      | cons y rest => simp [splitChars, hc, ih, hs]

theorem jsTrim_empty : jsTrim "" = "" := by decide

/-! ### Record builder -/

theorem eventTypesOf_str (s : String) (hs : s ≠ "") :
    eventTypesOf (Cell.str s) = some ((jsSplit s ';').map jsTrim) := by
  simp [eventTypesOf, Cell.truthy, hs]

theorem buildRecord_eventTypes (H : Host) (event : RawRow) (r : Record)
    (h : buildRecord H event = some r) : eventTypesOf event.EventType = some r.EventTypes := by
  unfold buildRecord at h
  cases ht : eventTypesOf event.EventType with
  | none => simp [ht] at h
  | some l =>
    simp [ht] at h
    subst h
    rfl

theorem buildRecord_of_eventTypes (H : Host) (event : RawRow) (l : List String)
    (h : eventTypesOf event.EventType = some l) :
    ∃ r, buildRecord H event = some r ∧ r.EventTypes = l ∧
      r.PrimaryEventType = jsOr (l.find? (fun t => t != "Ticketed Event")) l.head? ∧
      r.IsTicketed = l.contains "Ticketed Event" ∧
      r.IsSession = (jsOr (l.find? (fun t => t != "Ticketed Event")) l.head? == some "Session") := by
  unfold buildRecord
  simp [h]

theorem find?_append_first (p : String → Bool) (pre post : List String) (t : String)
    (hpre : ∀ x ∈ pre, p x = false) (ht : p t = true) :
    (pre ++ t :: post).find? p = some t := by
  induction pre with
  | nil => simp [List.find?, ht]
  | cons a pre ih =>
    have ha : p a = false := hpre a (by simp)
    simp only [List.cons_append, List.find?, ha]
    exact ih (fun x hx => hpre x (List.mem_cons_of_mem _ hx))

theorem isJsWhiteSpace_iff (c : Char) : isJsWhiteSpace c = true ↔ IsWhite c := by
  simp only [isJsWhiteSpace, IsWhite, Bool.or_eq_true, beq_iff_eq,
    Bool.and_eq_true, decide_eq_true_eq, List.mem_cons, List.mem_singleton,
    List.not_mem_nil, or_false]
  tauto

theorem head?_dropWhile_not {α : Type} (p : α → Bool) (l : List α) (c : α)
    (h : (l.dropWhile p).head? = some c) : p c = false := by
  induction l with
  | nil => simp at h
  | cons a l ih =>
    by_cases ha : p a = true
    · rw [List.dropWhile_cons_of_pos ha] at h
      exact ih h
    · rw [List.dropWhile_cons_of_neg ha] at h
      simp at h
      rw [← h]
      simpa using ha

theorem trimChars_spec (seg : List Char) : IsTrimOf seg (trimChars seg) := by
  have h1 : seg = seg.takeWhile isJsWhiteSpace ++ seg.dropWhile isJsWhiteSpace :=
    (List.takeWhile_append_dropWhile isJsWhiteSpace seg).symm
  have h2 : (seg.dropWhile isJsWhiteSpace).reverse =
      (seg.dropWhile isJsWhiteSpace).reverse.takeWhile isJsWhiteSpace ++
        (seg.dropWhile isJsWhiteSpace).reverse.dropWhile isJsWhiteSpace :=
    (List.takeWhile_append_dropWhile isJsWhiteSpace _).symm
  have h3 : seg.dropWhile isJsWhiteSpace =
      trimChars seg ++
        ((seg.dropWhile isJsWhiteSpace).reverse.takeWhile isJsWhiteSpace).reverse := by
    have := congrArg List.reverse h2
    rw [List.reverse_reverse, List.reverse_append] at this
    exact this
  refine ⟨seg.takeWhile isJsWhiteSpace,
    ((seg.dropWhile isJsWhiteSpace).reverse.takeWhile isJsWhiteSpace).reverse, ?_, ?_, ?_, ?_, ?_⟩
  · rw [List.append_assoc, ← h3]
    exact h1
  · intro c hc
    exact (isJsWhiteSpace_iff c).1 (List.mem_takeWhile_imp hc)
  · intro c hc
    exact (isJsWhiteSpace_iff c).1 (List.mem_takeWhile_imp (List.mem_reverse.1 hc))
  · intro c hc hw
    have hm : (seg.dropWhile isJsWhiteSpace).head? = some c := by
      rw [h3]
      cases ht : trimChars seg with
      | nil => rw [ht] at hc; simp at hc
      | cons a t => rw [ht] at hc; simpa using hc
    have := head?_dropWhile_not isJsWhiteSpace seg c hm
    rw [(isJsWhiteSpace_iff c).2 hw] at this
    exact absurd this (by decide)
  · intro c hc hw
    have hm : ((seg.dropWhile isJsWhiteSpace).reverse.dropWhile isJsWhiteSpace).head? =
        some c := by
      rw [← List.getLast?_reverse]
      exact hc
    have := head?_dropWhile_not isJsWhiteSpace _ c hm
    rw [(isJsWhiteSpace_iff c).2 hw] at this
    exact absurd this (by decide)

theorem forall₂_map_trim (segs : List (List Char)) :
    List.Forall₂ (fun seg (tag : String) => IsTrimOf seg tag.data) segs
      (segs.map (fun seg => jsTrim (String.mk seg))) := by
  induction segs with
  | nil => exact List.Forall₂.nil
  | cons seg segs ih => exact List.Forall₂.cons (trimChars_spec seg) ih

/-- C9: for a row whose "Event Type" cell is a non-empty string, eventTypes
is the list of the trimmed segments of the split on ';' : the segments are
the one list of ';'-free texts that, written with ';' between them, give the
cell text, they come in that order, and empty segments stay (a trailing ';'
gives a last element ""). Each tag is its segment without the leading and
trailing white space: the segment is white space, the tag, white space, and
the tag neither starts nor ends with white space. For an absent or empty cell
eventTypes is empty. -/
theorem buildRecord_eventTypes_split (H : Host) (event : RawRow) :
    (∀ s : String, event.EventType = Cell.str s → s ≠ "" →
      ∃ segs : List (List Char),
        segs ≠ [] ∧ (∀ seg ∈ segs, ';' ∉ seg) ∧ joinWith ';' segs = s.data ∧
        (∀ segs2 : List (List Char), segs2 ≠ [] → (∀ seg ∈ segs2, ';' ∉ seg) →
          joinWith ';' segs2 = s.data → segs2 = segs) ∧
        (buildRecord H event).map (fun r => r.EventTypes) =
          some (segs.map (fun seg => jsTrim (String.mk seg))) ∧
        ∃ tags : List String, (buildRecord H event).map (fun r => r.EventTypes) = some tags ∧
          List.Forall₂ (fun seg (tag : String) => IsTrimOf seg tag.data) segs tags) ∧
    (∀ t : String, event.EventType = Cell.str (t ++ ";") →
      ∃ r, buildRecord H event = some r ∧ r.EventTypes.getLast? = some "") ∧
    (event.EventType = Cell.undefined ∨ event.EventType = Cell.str "" →
      (buildRecord H event).map (fun r => r.EventTypes) = some []) := by
  refine ⟨?_, ?_, ?_⟩
  · intro s hs hne
    have ht : eventTypesOf event.EventType = some ((jsSplit s ';').map jsTrim) := by
      rw [hs]; exact eventTypesOf_str s hne
    obtain ⟨r, hr, hl, -⟩ := buildRecord_of_eventTypes H event _ ht
    have hmap : (buildRecord H event).map (fun r => r.EventTypes) =
        some ((splitChars ';' s.data).map (fun seg => jsTrim (String.mk seg))) := by
      simp [hr, hl, jsSplit]
    refine ⟨splitChars ';' s.data, splitChars_ne_nil _ _, splitChars_not_mem _ _,
      joinWith_splitChars _ _, ?_, hmap, _, hmap, forall₂_map_trim _⟩
    intro segs2 h1 h2 h3
    rw [← h3, splitChars_joinWith ';' segs2 h1 h2]
  · intro t ht
    have hne : t ++ ";" ≠ "" := by
      intro e
      have := congrArg String.length e
      simp at this
      exact absurd this.2 (by decide)
    have hty : eventTypesOf event.EventType = some ((jsSplit (t ++ ";") ';').map jsTrim) := by
      rw [ht]; exact eventTypesOf_str _ hne
    obtain ⟨r, hr, hl, -⟩ := buildRecord_of_eventTypes H event _ hty
    refine ⟨r, hr, ?_⟩
    have hd : (t ++ ";").data = t.data ++ [';'] := by simp
    rw [hl, jsSplit, hd, splitChars_append_singleton]
    simp [jsTrim_empty]
  · intro h
    have hty : eventTypesOf event.EventType = some [] := by
      rcases h with h | h <;> simp [h, eventTypesOf, Cell.truthy]
    obtain ⟨r, hr, hl, -⟩ := buildRecord_of_eventTypes H event _ hty
    simp [hr, hl]

/-- Witness of C9 at the type field "Ticketed Event;;Technical Program", at
the field " Ticketed Event ;\t Technical Program\n " with white space around
the tags, and at the field "A;". -/
theorem buildRecord_eventTypes_split_witness :
    (buildRecord sampleHost (sampleRow "Ticketed Event;;Technical Program" "x")).map
        (fun r => r.EventTypes) = some ["Ticketed Event", "", "Technical Program"] ∧
    (buildRecord sampleHost (sampleRow " Ticketed Event ;\t Technical Program\n " "x")).map
        (fun r => r.EventTypes) = some ["Ticketed Event", "Technical Program"] ∧
    (∃ r, buildRecord sampleHost (sampleRow "A;" "x") = some r ∧
      r.EventTypes.getLast? = some "") := by
  refine ⟨?_, ?_, ?_⟩
  · obtain ⟨segs, -, hfree, hjoin, huniq, hb, -⟩ :=
      (buildRecord_eventTypes_split sampleHost
        (sampleRow "Ticketed Event;;Technical Program" "x")).1
        "Ticketed Event;;Technical Program" rfl (by decide)
    have hs : ["Ticketed Event".data, [], "Technical Program".data] = segs :=
      huniq _ (by simp) (by decide) (by decide)
    rw [hb, ← hs]
    decide
  · obtain ⟨segs, -, hfree, hjoin, huniq, hb, -⟩ :=
      (buildRecord_eventTypes_split sampleHost
        (sampleRow " Ticketed Event ;\t Technical Program\n " "x")).1
        " Ticketed Event ;\t Technical Program\n " rfl (by decide)
    have hs : [" Ticketed Event ".data, "\t Technical Program\n ".data] = segs :=
      huniq _ (by simp) (by decide) (by decide)
    rw [hb, ← hs]
    decide
  · exact (buildRecord_eventTypes_split sampleHost (sampleRow "A;" "x")).2.1 "A" rfl

/-- C10: the builder's isTicketed is true exactly when "Ticketed Event" is
an element of the row's eventTypes, the split and trimmed type field; for an
absent type field the record is built and the flag is false. -/
theorem buildRecord_isTicketed (H : Host) (event : RawRow) :
    (∀ r, buildRecord H event = some r →
      eventTypesOf event.EventType = some r.EventTypes ∧
      (r.IsTicketed = true ↔ "Ticketed Event" ∈ r.EventTypes)) ∧
    (event.EventType = Cell.undefined →
      (buildRecord H event).map (fun r => r.IsTicketed) = some false) := by
  refine ⟨?_, ?_⟩
  · intro r hr
    have ht := buildRecord_eventTypes H event r hr
    obtain ⟨r2, hr2, hl, -, htick, -⟩ := buildRecord_of_eventTypes H event _ ht
    have : r2 = r := by rw [hr] at hr2; exact (Option.some.inj hr2).symm
    subst this
    refine ⟨ht, ?_⟩
    rw [htick]
    simp
  · intro h
    have hty : eventTypesOf event.EventType = some [] := by
      simp [h, eventTypesOf, Cell.truthy]
    obtain ⟨r, hr, -, -, htick, -⟩ := buildRecord_of_eventTypes H event _ hty
    simp [hr, htick]

/-- Witness of C10 at the type field "Ticketed Event; Technical Program". -/
theorem buildRecord_isTicketed_witness :
    ∃ r, buildRecord sampleHost (sampleRow "Ticketed Event; Technical Program" "x") = some r ∧
      r.IsTicketed = true ∧ "Ticketed Event" ∈ r.EventTypes := by
  have hb : (buildRecord sampleHost
      (sampleRow "Ticketed Event; Technical Program" "x")).isSome = true := by decide
  obtain ⟨r, hr⟩ := Option.isSome_iff_exists.1 hb
  have h := ((buildRecord_isTicketed sampleHost
    (sampleRow "Ticketed Event; Technical Program" "x")).1 r hr).2
  have hm : "Ticketed Event" ∈ r.EventTypes := by
    have hd : (buildRecord sampleHost (sampleRow "Ticketed Event; Technical Program" "x")).map
        (fun r => decide ("Ticketed Event" ∈ r.EventTypes)) = some true := by decide
    rw [hr] at hd
    simpa using hd
  exact ⟨r, hr, h.2 hm, hm⟩

/-- C8 as stated fails: for the type field "Ticketed Event;;Technical
Program" the first element of eventTypes that is not "Ticketed Event" is the
empty string, and the builder's primaryType is "Ticketed Event". -/
theorem buildRecord_primaryType_counterexample :
    ¬ (∀ (H : Host) (event : RawRow) (r : Record), buildRecord H event = some r →
        ∀ (pre post : List String) (t : String), r.EventTypes = pre ++ t :: post →
          (∀ x ∈ pre, x = "Ticketed Event") → t ≠ "Ticketed Event" →
          r.PrimaryEventType = some t) := by
  intro h
  have hb : (buildRecord sampleHost
      (sampleRow "Ticketed Event;;Technical Program" "x")).isSome = true := by decide
  obtain ⟨r, hr⟩ := Option.isSome_iff_exists.1 hb
  have hl : r.EventTypes = ["Ticketed Event"] ++ "" :: ["Technical Program"] := by
    have hd : (buildRecord sampleHost (sampleRow "Ticketed Event;;Technical Program" "x")).map
        (fun r => r.EventTypes) = some ["Ticketed Event", "", "Technical Program"] := by decide
    rw [hr] at hd
    simpa using hd
  have hp : r.PrimaryEventType = some "Ticketed Event" := by
    have hd : (buildRecord sampleHost (sampleRow "Ticketed Event;;Technical Program" "x")).map
        (fun r => r.PrimaryEventType) = some (some "Ticketed Event") := by decide
    rw [hr] at hd
    simpa using hd
  have := h sampleHost _ r hr ["Ticketed Event"] ["Technical Program"] "" hl
    (by simp) (by decide)
  rw [hp] at this
  exact absurd this (by decide)

/-- C8 amended: the builder's primaryType is the first element of
eventTypes that is not "Ticketed Event", when that element is not the empty
string; it is eventTypes[0] when every element is "Ticketed Event", and
undefined when eventTypes is empty. -/
theorem buildRecord_primaryType (H : Host) (event : RawRow) (r : Record)
    (h : buildRecord H event = some r) :
    (∀ (pre post : List String) (t : String), r.EventTypes = pre ++ t :: post →
      (∀ x ∈ pre, x = "Ticketed Event") → t ≠ "Ticketed Event" → t ≠ "" →
      r.PrimaryEventType = some t) ∧
    ((∀ x ∈ r.EventTypes, x = "Ticketed Event") → r.PrimaryEventType = r.EventTypes.head?) ∧
    (r.EventTypes = [] → r.PrimaryEventType = none) := by
  have ht := buildRecord_eventTypes H event r h
  obtain ⟨r2, hr2, hl, hprim, -⟩ := buildRecord_of_eventTypes H event _ ht
  have : r2 = r := by rw [h] at hr2; exact (Option.some.inj hr2).symm
  subst this
  refine ⟨?_, ?_, ?_⟩
  · intro pre post t hsplit hpre hne hemp
    rw [hprim, hsplit, find?_append_first _ pre post t (by
      intro x hx
      simp [hpre x hx]) (by simpa using hne)]
    simp [jsOr, hemp]
  · intro hall
    rw [hprim]
    have hnone : r2.EventTypes.find? (fun t => t != "Ticketed Event") = none := by
      rw [List.find?_eq_none]
      intro x hx
      simp [hall x hx]
    rw [hnone]
    rfl
  · intro hnil
    rw [hprim, hnil]
    rfl

/-- Witness of the amended C8: for eventTypes = ["Ticketed Event",
"Technical Program"] the primaryType is "Technical Program". -/
theorem buildRecord_primaryType_witness :
    ∃ r, buildRecord sampleHost (sampleRow "Ticketed Event;Technical Program" "x") = some r ∧
      r.EventTypes = ["Ticketed Event", "Technical Program"] ∧
      r.PrimaryEventType = some "Technical Program" := by
  have hb : (buildRecord sampleHost
      (sampleRow "Ticketed Event;Technical Program" "x")).isSome = true := by decide
  obtain ⟨r, hr⟩ := Option.isSome_iff_exists.1 hb
  have hl : r.EventTypes = ["Ticketed Event", "Technical Program"] := by
    have hd : (buildRecord sampleHost (sampleRow "Ticketed Event;Technical Program" "x")).map
        (fun r => r.EventTypes) = some ["Ticketed Event", "Technical Program"] := by decide
    rw [hr] at hd
    simpa using hd
  exact ⟨r, hr, hl, (buildRecord_primaryType sampleHost _ r hr).1 ["Ticketed Event"] []
    "Technical Program" hl (by simp) (by decide) (by decide)⟩

/-! ### Session attacher -/

theorem pushSession_length (event : Record) (ps qs : List EventRecord) (p : EventRecord) :
    pushSession event ps.length (ps ++ p :: qs) =
      ps ++ { p with sessions := p.sessions ++ [event] } :: qs := by
  induction ps with
  | nil => rfl
  | cons a ps ih => simp [pushSession, ih]

theorem foldl_attachStep_parent (l : List Record) :
    ∀ (ps : List EventRecord) (p : EventRecord),
      (l.foldl attachStep { processedEvents := ps ++ [p], currentParent := some ps.length }).processedEvents =
        ps ++ { p with sessions := p.sessions ++ l.takeWhile (fun x => x.IsSession) } ::
          attachFrom l := by
  induction l with
  | nil => intro ps p; simp [attachFrom]
  | cons r rs ih =>
    intro ps p
    by_cases hr : r.IsSession = true
    · have hstep : attachStep { processedEvents := ps ++ [p], currentParent := some ps.length } r =
          { processedEvents := ps ++ [{ p with sessions := p.sessions ++ [r] }],
            currentParent := some ps.length } := by
        simp [attachStep, hr, pushSession_length]
      rw [List.foldl_cons, hstep, ih]
      simp [attachFrom, hr, List.takeWhile]
    · have hstep : attachStep { processedEvents := ps ++ [p], currentParent := some ps.length } r =
          { processedEvents := (ps ++ [p]) ++ [{ toRecord := r, sessions := [] }],
            currentParent := some (ps ++ [p]).length } := by
        simp [attachStep, hr]
      rw [List.foldl_cons, hstep, ih]
      simp [attachFrom, hr, List.takeWhile]

theorem foldl_attachStep_start (l : List Record) :
    (l.foldl attachStep { processedEvents := [], currentParent := none }).processedEvents =
      attachFrom l := by
  induction l with
  | nil => rfl
  | cons r rs ih =>
    by_cases hr : r.IsSession = true
    · have hstep : attachStep { processedEvents := [], currentParent := none } r =
          { processedEvents := [], currentParent := none } := by
        simp [attachStep, hr]
      rw [List.foldl_cons, hstep, ih]
      simp [attachFrom, hr]
    · have hstep : attachStep { processedEvents := [], currentParent := none } r =
          { processedEvents := [] ++ [{ toRecord := r, sessions := [] }],
            currentParent := some ([] : List EventRecord).length } := by
        simp [attachStep, hr]
      rw [List.foldl_cons, hstep, foldl_attachStep_parent]
      simp [attachFrom, hr]

theorem attachSessions_eq_attachFrom (l : List Record) : attachSessions l = attachFrom l :=
  foldl_attachStep_start l

theorem attachFrom_sessions_append (ss l : List Record) (h : ∀ x ∈ ss, x.IsSession = true) :
    attachFrom (ss ++ l) = attachFrom l := by
  induction ss with
  | nil => rfl
  | cons a ss ih =>
    have ha : a.IsSession = true := h a (by simp)
    simp [attachFrom, ha]
    exact ih (fun x hx => h x (List.mem_cons_of_mem _ hx))

theorem takeWhile_append_stop {α : Type} (p : α → Bool) (l post : List α)
    (hpost : ∀ q, post.head? = some q → p q = false) :
    (l ++ post).takeWhile p = l.takeWhile p := by
  induction l with
  | nil =>
    cases post with
    | nil => rfl
    | cons q post => simp [List.takeWhile, hpost q rfl]
  | cons a l ih =>
    by_cases ha : p a = true
    · simp [List.takeWhile, ha, ih]
    · simp [List.takeWhile, ha]

theorem attachFrom_append (pre post : List Record)
    (hpost : ∀ q, post.head? = some q → q.IsSession = false) :
    attachFrom (pre ++ post) = attachFrom pre ++ attachFrom post := by
  induction pre with
  | nil => rfl
  | cons a pre ih =>
    by_cases ha : a.IsSession = true
    · simp [attachFrom, ha, ih]
    · simp [attachFrom, ha, ih, takeWhile_append_stop _ pre post hpost]

theorem attachFrom_map_toRecord (l : List Record) :
    (attachFrom l).map (fun e => e.toRecord) = l.filter (fun r => !r.IsSession) := by
  induction l with
  | nil => rfl
  | cons a l ih =>
    by_cases ha : a.IsSession = true
    · simp [attachFrom, ha, ih]
    · simp [attachFrom, ha, ih]

theorem attachFrom_not_session (l : List Record) :
    ∀ e ∈ attachFrom l, e.IsSession = false := by
  intro e he
  have hm : e.toRecord ∈ (attachFrom l).map (fun e => e.toRecord) :=
    List.mem_map.2 ⟨e, he, rfl⟩
  rw [attachFrom_map_toRecord] at hm
  simpa using (List.mem_filter.1 hm).2

/-- C5: the attacher's output has as top-level records the records that
are not sessions, in input order; a top-level record followed in the input by
a run of sessions that ends at the next record that is not a session (or at
the end) carries exactly that run as its sessions, in input order; and the
rows Session "Talk A", Technical Program "Morning Block", Session "Talk B"
give "Morning Block" with the one session "Talk B". -/
theorem attachSessions_positional (events : List Record) :
    (attachSessions events).map (fun e => e.toRecord) =
        events.filter (fun r => !r.IsSession) ∧
    (∀ (pre ss post : List Record) (p : Record), events = pre ++ p :: (ss ++ post) →
      p.IsSession = false → (∀ x ∈ ss, x.IsSession = true) →
      (∀ q, post.head? = some q → q.IsSession = false) →
      attachSessions events =
        attachSessions pre ++ { toRecord := p, sessions := ss } :: attachSessions post) ∧
    (∀ H : Host, (mapRaising (buildRecord H) exampleRows).map
        (fun built => (attachSessions built).map
          (fun e => (e.Event, e.sessions.map (fun x => x.Event)))) =
      some [(Cell.str "Morning Block", [Cell.str "Talk B"])]) := by
  refine ⟨?_, ?_, ?_⟩
  · rw [attachSessions_eq_attachFrom, attachFrom_map_toRecord]
  · intro pre ss post p he hp hss hpost
    simp only [attachSessions_eq_attachFrom]
    rw [he, attachFrom_append pre (p :: (ss ++ post)) (by
      intro q hq
      simp at hq
      rw [← hq]; exact hp)]
    have htw : (ss ++ post).takeWhile (fun x => x.IsSession) = ss := by
      rw [takeWhile_append_stop _ ss post hpost]
      exact List.takeWhile_eq_self_iff.2 hss
    simp [attachFrom, hp, htw, attachFrom_sessions_append ss post hss]
  · intro H
    rfl

/-- Witness of C5: the example rows built by the sample host, split as the
orphan "Talk A", the parent "Morning Block" and its session "Talk B". -/
theorem attachSessions_positional_witness :
    ∃ a p b, exampleBuilt = [a] ++ p :: ([b] ++ []) ∧ p.IsSession = false ∧
      b.IsSession = true ∧
      attachSessions exampleBuilt =
        attachSessions [a] ++ { toRecord := p, sessions := [b] } :: attachSessions [] := by
  refine ⟨_, _, _, rfl, rfl, rfl, ?_⟩
  exact (attachSessions_positional exampleBuilt).2.1 _ _ [] _ rfl rfl
    (by intro x hx; simp at hx; rw [hx]; rfl) (by intro q hq; simp at hq)

/-! ### Map and sort -/

theorem mapRaising_mem {α β : Type} (f : α → Option β) :
    ∀ (l : List α) (bs : List β), mapRaising f l = some bs →
      ∀ b ∈ bs, ∃ a ∈ l, f a = some b := by
  intro l
  induction l with
  | nil =>
    intro bs h b hb
    simp [mapRaising] at h
    subst h
    simp at hb
  | cons a l ih =>
    intro bs h b hb
    unfold mapRaising at h
    cases hfa : f a with
    | none => simp [hfa] at h
    | some b0 =>
      cases hl : mapRaising f l with
      | none => simp [hfa, hl] at h
      | some bs0 =>
        simp [hfa, hl] at h
        subst h
        rcases List.mem_cons.1 hb with e | m
        · exact ⟨a, by simp, by rw [hfa, e]⟩
        · obtain ⟨a2, ha2, hf2⟩ := ih bs0 hl b m
          exact ⟨a2, List.mem_cons_of_mem _ ha2, hf2⟩

theorem mapRaising_append {α β : Type} (f : α → Option β) (l1 l2 : List α) :
    mapRaising f (l1 ++ l2) =
      (mapRaising f l1).bind (fun b1 => (mapRaising f l2).map (fun b2 => b1 ++ b2)) := by
  induction l1 with
  | nil =>
    cases h : mapRaising f l2 <;> simp [mapRaising, h]
  | cons a l1 ih =>
    show mapRaising f (a :: (l1 ++ l2)) = _
    simp only [mapRaising]
    cases hfa : f a with
    | none => simp
    | some b0 =>
      rw [ih]
      cases h1 : mapRaising f l1 with
      | none => simp
      | some bs1 =>
        cases h2 : mapRaising f l2 <;> simp

theorem orderedInsert_perm {α : Type} (cmp : α → α → Option (Option Int)) (a : α) :
    ∀ (l out : List α), orderedInsert cmp a l = some out → out.Perm (a :: l) := by
  intro l
  induction l with
  | nil =>
    intro out h
    simp [orderedInsert] at h
    subst h
    exact List.Perm.refl _
  | cons b l ih =>
    intro out h
    unfold orderedInsert at h
    cases hv : cmp a b with
    | none => simp [hv] at h
    | some v =>
      by_cases hp : isPositive v = true
      · cases hr : orderedInsert cmp a l with
        | none => simp [hv, hp, hr] at h
        | some rest =>
          simp [hv, hp, hr] at h
          subst h
          exact ((ih rest hr).cons b).trans (List.Perm.swap a b l)
      · simp [hv, hp] at h
        subst h
        exact List.Perm.refl _

theorem jsSort_perm {α : Type} (cmp : α → α → Option (Option Int)) :
    ∀ (l out : List α), jsSort cmp l = some out → out.Perm l := by
  intro l
  induction l with
  | nil =>
    intro out h
    simp [jsSort] at h
    subst h
    exact List.Perm.refl _
  | cons a l ih =>
    intro out h
    unfold jsSort at h
    cases hs : jsSort cmp l with
    | none => simp [hs] at h
    | some sorted =>
      simp [hs] at h
      exact (orderedInsert_perm cmp a sorted out h).trans ((ih sorted hs).cons a)

theorem buildRecord_isSession (H : Host) (event : RawRow) (r : Record)
    (h : buildRecord H event = some r) :
    r.IsSession = (r.PrimaryEventType == some "Session") := by
  have ht := buildRecord_eventTypes H event r h
  obtain ⟨r2, hr2, -, hprim, -, hsess⟩ := buildRecord_of_eventTypes H event _ ht
  have : r2 = r := by rw [h] at hr2; exact (Option.some.inj hr2).symm
  subst this
  rw [hsess, hprim]

theorem filterByDay_sublist (day : Option String) (l : List EventRecord) :
    (filterByDay day l).Sublist l := by
  unfold filterByDay
  split
  · split
    · exact List.filter_sublist l
    · exact List.Sublist.refl l
  · exact List.Sublist.refl l

theorem filterByType_sublist (types : List String) (l : List EventRecord) :
    (filterByType types l).Sublist l := by
  unfold filterByType
  split
  · exact List.filter_sublist l
  · exact List.Sublist.refl l

theorem applyFilters_sublist (s : UIState) : (applyFilters s).filteredEvents.Sublist s.events :=
  (filterByType_sublist _ _).trans (filterByDay_sublist _ _)

theorem performSearch_subset (H : Host) (s : UIState) (q : String) :
    ∀ e ∈ (performSearch H s q).filteredEvents, e ∈ s.events ∨ e ∈ s.filteredEvents := by
  intro e he
  unfold performSearch at he
  split at he
  · split at he
    · exact Or.inl ((applyFilters_sublist s).subset he)
    · exact Or.inr he
  · exact Or.inl (((List.filter_sublist _).trans
      ((filterByType_sublist _ _).trans (filterByDay_sublist _ _))).subset he)

/-! ### Build pipeline -/

theorem buildPipeline_mem (H : Host) (rows : List RawRow) (canon : List EventRecord)
    (h : buildPipeline H rows = some canon) :
    ∀ e ∈ canon, e.IsSession = false ∧ ∃ row ∈ rows, buildRecord H row = some e.toRecord := by
  intro e he
  unfold buildPipeline at h
  cases hb : mapRaising (buildRecord H) rows with
  | none => simp [hb] at h
  | some built =>
    simp [hb] at h
    have hperm := jsSort_perm _ _ _ h
    have hmem : e ∈ attachFrom built := by
      rw [← attachSessions_eq_attachFrom]
      exact hperm.subset he
    refine ⟨attachFrom_not_session built e hmem, ?_⟩
    have hrec : e.toRecord ∈ (attachFrom built).map (fun e => e.toRecord) :=
      List.mem_map.2 ⟨e, hmem, rfl⟩
    rw [attachFrom_map_toRecord] at hrec
    exact mapRaising_mem _ rows built hb _ (List.mem_filter.1 hrec).1

/-- C6: no record whose primaryType is "Session" is at the top level of the
canonical list the build pipeline produces, nor of a visible list that
`applyFilters` or `performSearch` derives from it. -/
theorem buildPipeline_no_top_level_session (H : Host) (rows : List RawRow)
    (canon : List EventRecord) (h : buildPipeline H rows = some canon) :
    (∀ e ∈ canon, e.PrimaryEventType ≠ some "Session") ∧
    ∀ s : UIState, s.events = canon →
      (∀ e ∈ (applyFilters s).filteredEvents, e.PrimaryEventType ≠ some "Session") ∧
      ((∀ e ∈ s.filteredEvents, e.PrimaryEventType ≠ some "Session") →
        ∀ q, ∀ e ∈ (performSearch H s q).filteredEvents,
          e.PrimaryEventType ≠ some "Session") := by
  have hcanon : ∀ e ∈ canon, e.PrimaryEventType ≠ some "Session" := by
    intro e he hp
    obtain ⟨hs, row, -, hrow⟩ := buildPipeline_mem H rows canon h e he
    have := buildRecord_isSession H row e.toRecord hrow
    rw [hs, hp] at this
    simp at this
  refine ⟨hcanon, ?_⟩
  intro s hs
  refine ⟨?_, ?_⟩
  · intro e he
    exact hcanon e (hs ▸ (applyFilters_sublist s).subset he)
  · intro hvis q e he
    rcases performSearch_subset H s q e he with h1 | h1
    · exact hcanon e (hs ▸ h1)
    · exact hvis e h1

/-- Witness of C6: the three example rows are built into a canonical list,
and the state that shows it whole has no session at the top level. -/
theorem buildPipeline_no_top_level_session_witness :
    ∃ canon, buildPipeline sampleHost exampleRows = some canon ∧ canon.length = 1 ∧
      ∀ e ∈ canon, e.PrimaryEventType ≠ some "Session" := by
  have hb : (buildPipeline sampleHost exampleRows).isSome = true := by decide
  obtain ⟨canon, hc⟩ := Option.isSome_iff_exists.1 hb
  have hl : canon.length = 1 := by
    have hd : (buildPipeline sampleHost exampleRows).map List.length = some 1 := by decide
    rw [hc] at hd
    simpa using hd
  exact ⟨canon, hc, hl, (buildPipeline_no_top_level_session sampleHost exampleRows canon hc).1⟩

theorem mapRaising_sessions (H : Host) (orphans : List RawRow)
    (h : ∀ row ∈ orphans, ∃ r, buildRecord H row = some r ∧ r.IsSession = true) :
    ∃ built, mapRaising (buildRecord H) orphans = some built ∧
      ∀ x ∈ built, x.IsSession = true := by
  induction orphans with
  | nil => exact ⟨[], rfl, by simp⟩
  | cons a l ih =>
    obtain ⟨r, hr, hs⟩ := h a (by simp)
    obtain ⟨built, hb, hall⟩ := ih (fun row hrow => h row (List.mem_cons_of_mem _ hrow))
    refine ⟨r :: built, by simp [mapRaising, hr, hb], ?_⟩
    intro x hx
    rcases List.mem_cons.1 hx with e | m
    · rw [e]; exact hs
    · exact hall x m

/-- C7: session rows that have no row that is not a session before them leave
no trace in the output: the pipeline gives for the whole input what it gives
for the rows after them, so they are neither top-level records nor elements
of a sessions list. -/
theorem buildPipeline_orphan_sessions (H : Host) (orphans rest : List RawRow)
    (h : ∀ row ∈ orphans, ∃ r, buildRecord H row = some r ∧ r.IsSession = true) :
    buildPipeline H (orphans ++ rest) = buildPipeline H rest := by
  obtain ⟨ob, hob, hall⟩ := mapRaising_sessions H orphans h
  unfold buildPipeline
  rw [mapRaising_append, hob]
  cases hr : mapRaising (buildRecord H) rest with
  | none => simp
  | some rb =>
    simp [attachSessions_eq_attachFrom, attachFrom_sessions_append ob rb hall]

/-- Witness of C7: the orphan row Session "Talk A" before the two other
example rows. -/
theorem buildPipeline_orphan_sessions_witness :
    buildPipeline sampleHost ([sampleRow "Session" "Talk A"] ++
        [sampleRow "Technical Program" "Morning Block", sampleRow "Session" "Talk B"]) =
      buildPipeline sampleHost
        [sampleRow "Technical Program" "Morning Block", sampleRow "Session" "Talk B"] :=
  buildPipeline_orphan_sessions sampleHost [sampleRow "Session" "Talk A"] _ (by
    intro row hrow
    simp at hrow
    subst hrow
    have hb : (buildRecord sampleHost (sampleRow "Session" "Talk A")).isSome = true := by decide
    obtain ⟨r, hr⟩ := Option.isSome_iff_exists.1 hb
    refine ⟨r, hr, ?_⟩
    have hd : (buildRecord sampleHost (sampleRow "Session" "Talk A")).map
        (fun r => r.IsSession) = some true := by decide
    rw [hr] at hd
    simpa using hd)

/-! ### Day/type filter and search -/

theorem filterByDay_filterByType_comm (day : Option String) (types : List String)
    (l : List EventRecord) :
    filterByType types (filterByDay day l) = filterByDay day (filterByType types l) := by
  unfold filterByDay filterByType
  split <;> split <;> (try split) <;> simp [List.filter_filter, Bool.and_comm]

theorem includesChars_nil (t : List Char) (h : t ≠ []) : includesChars [] t = false := by
  cases t with
  | nil => exact absurd rfl h
  | cons c t => rfl

theorem any_congr_mem {α : Type} (f g : α → Bool) (l : List α)
    (h : ∀ x ∈ l, f x = g x) : l.any f = l.any g := by
  induction l with
  | nil => rfl
  | cons a l ih =>
    simp only [List.any_cons]
    rw [h a (by simp), ih (fun x hx => h x (List.mem_cons_of_mem _ hx))]

theorem includesChars_iff_infix (s t : List Char) : includesChars s t = true ↔ t <:+: s := by
  induction s with
  | nil => simp [includesChars, List.isEmpty_iff]
  | cons c s ih =>
    rw [List.infix_cons_iff, ← ih]
    simp [includesChars]

theorem fieldMatch_iff (H : Host) (terms : String) (x : Cell) :
    fieldMatch H terms x = true ↔ SearchedCellHas H terms x := by
  unfold fieldMatch jsIncludes
  rw [Bool.and_eq_true, includesChars_iff_infix]
  cases x with
  | undefined => simp [Cell.truthy, SearchedCellHas]
  | str t => simp [Cell.truthy, SearchedCellHas]
  | num n => simp [Cell.truthy, SearchedCellHas]
  | date d => simp [Cell.truthy, SearchedCellHas]

theorem eventMatch_iff (H : Host) (terms : String) (e : EventRecord) :
    eventMatch H terms e = true ↔ SearchHit H terms e := by
  unfold eventMatch sessionMatch
  simp only [Bool.or_eq_true, List.any_eq_true, fieldMatch_iff, or_assoc]

/-- C1 as stated fails at a cell that holds the number 0: the query "0" is a
substring of the text "0" of the location, and `performSearch` does not keep
the event, because the cell is falsy. -/
theorem performSearch_zero_counterexample :
    ¬ (∀ (H : Host) (s : UIState) (query : String), jsTrim query ≠ "" →
        (performSearch H s query).filteredEvents =
          (applyFilters s).filteredEvents.filter
            (fun e => decide (PresentHit H (jsTrim (H.toLowerCase query)) e))) := by
  intro h
  exact absurd (h sampleHost (initialState zeroLocationSchedule) "0" (by decide)) (by decide)

/-- C1 amended: for a query whose trimmed text is not empty, `performSearch`
leaves the list that `applyFilters` computes for the same state, restricted
in the same order to the events for which the lower-cased trimmed query is a
substring of the lower-cased text of the title, details, location or raw type
cell, or of the title, details or location cell of one of the sessions, where
a cell is searched only when it is not absent, not empty and not the number
0, and a number or date cell is searched through its `toString()` text;
nothing else makes an event match. -/
theorem performSearch_filteredEvents (H : Host) (s : UIState) (query : String)
    (hq : jsTrim query ≠ "") :
    (performSearch H s query).filteredEvents =
      (applyFilters s).filteredEvents.filter
        (fun e => decide (SearchHit H (jsTrim (H.toLowerCase query)) e)) := by
  have hq2 : (jsTrim query == "") = false := by simpa using hq
  unfold performSearch
  simp only [hq2, searchStep]
  apply List.filter_congr
  intro e _
  rw [Bool.eq_iff_iff, eventMatch_iff]
  simp

/-- Witness of the amended C1: the query " LAB " finds the event titled
"Collaborative Lab Tour" of the sample schedule, and the query "101" finds
the event whose location is the number 101. -/
theorem performSearch_filteredEvents_witness :
    (performSearch sampleHost (initialState sampleSchedule) " LAB ").filteredEvents.map
        (fun e => e.Event) = [Cell.str "Collaborative Lab Tour"] ∧
    (performSearch sampleHost (initialState numberLocationSchedule) "101").filteredEvents.map
        (fun e => e.Location) = [Cell.num 101] :=
  ⟨(congrArg (List.map (fun e => e.Event))
      (performSearch_filteredEvents sampleHost (initialState sampleSchedule) " LAB "
        (by decide))).trans (by decide),
   (congrArg (List.map (fun e => e.Location))
      (performSearch_filteredEvents sampleHost (initialState numberLocationSchedule) "101"
        (by decide))).trans (by decide)⟩

/-- C2 as stated fails for the selected day "" (the label of an event whose
date cell is the empty string): `applyFilters` then keeps the events of
every day. -/
theorem applyFilters_day_counterexample :
    ¬ (∀ (s : UIState) (day : String), s.selectedDay = some day →
        (applyFilters s).filteredEvents =
          s.events.filter (fun e => decide (e.Date = Cell.str day ∧
            (s.selectedEventTypes ≠ [] →
              ∃ t ∈ e.EventTypes, t ∈ s.selectedEventTypes)))) := by
  intro h
  exact absurd (h { initialState sampleSchedule with selectedDay := some "" } "" rfl)
    (by decide)

/-- C2 amended: for a selected day that is not the empty string and every
selected type set, `applyFilters` leaves exactly the events, in canonical
order, whose date equals the selected day and, when the set is not empty,
one of whose eventTypes is in the set. -/
theorem applyFilters_day_type (s : UIState) (day : String)
    (hday : s.selectedDay = some day) (hne : day ≠ "") :
    (applyFilters s).filteredEvents =
      s.events.filter (fun e => decide (e.Date = Cell.str day ∧
        (s.selectedEventTypes ≠ [] → ∃ t ∈ e.EventTypes, t ∈ s.selectedEventTypes))) := by
  unfold applyFilters filterByDay filterByType
  simp only [hday]
  have hne2 : (day != "") = true := by simpa using hne
  simp only [hne2, if_true]
  by_cases ht : s.selectedEventTypes = []
  · simp only [ht, List.length_nil, gt_iff_lt, lt_self_iff_false, if_false]
    apply List.filter_congr
    intro e _
    rw [Bool.eq_iff_iff]
    simp
  · have hlen : s.selectedEventTypes.length > 0 := List.length_pos.2 ht
    simp only [hlen, if_true, List.filter_filter]
    apply List.filter_congr
    intro e _
    rw [Bool.eq_iff_iff]
    simp [ht, and_comm]

/-- Witness of the amended C2: the day "Monday, June 2" and the type
"Registration" over the sample schedule. -/
theorem applyFilters_day_type_witness :
    (applyFilters { initialState sampleSchedule with
        selectedDay := some "Monday, June 2",
        selectedEventTypes := ["Registration"] }).filteredEvents =
      sampleSchedule.filter (fun e => decide (e.Date = Cell.str "Monday, June 2" ∧
        (["Registration"] ≠ [] → ∃ t ∈ e.EventTypes, t ∈ ["Registration"]))) :=
  applyFilters_day_type { initialState sampleSchedule with
    selectedDay := some "Monday, June 2", selectedEventTypes := ["Registration"] }
    "Monday, June 2" rfl (by decide)

/-- C3: with no day selected, no type selected and an empty query the
visible list is the full event list, unchanged, whether it is computed by
`applyFilters`, by `performSearch` while search is open, or by the refresh
the day and type handlers run. -/
theorem default_state_shows_all (H : Host) (s : UIState)
    (hday : s.selectedDay = none) (htypes : s.selectedEventTypes = []) :
    (applyFilters s).filteredEvents = s.events ∧
    (∀ q, jsTrim q = "" → s.isSearchActive = true →
      (performSearch H s q).filteredEvents = s.events) ∧
    (jsTrim s.searchInput = "" → (refresh H s).filteredEvents = s.events) := by
  have h1 : (applyFilters s).filteredEvents = s.events := by
    simp [applyFilters, filterByDay, filterByType, hday, htypes]
  refine ⟨h1, ?_, ?_⟩
  · intro q hq hact
    simp [performSearch, hq, hact, h1]
  · intro hq
    unfold refresh
    by_cases hact : s.isSearchActive = true
    · simp [hact, performSearch, hq, h1]
    · simp [hact, h1]

/-- Witness of C3: the sample schedule in its initial state. -/
theorem default_state_shows_all_witness :
    (applyFilters (initialState sampleSchedule)).filteredEvents = sampleSchedule ∧
    (refresh sampleHost (initialState sampleSchedule)).filteredEvents = sampleSchedule :=
  ⟨(default_state_shows_all sampleHost (initialState sampleSchedule) rfl rfl).1,
   (default_state_shows_all sampleHost (initialState sampleSchedule) rfl rfl).2.2 (by decide)⟩

/-- C4: the day step and the type step commute, alone and under the search
step, and both `applyFilters` and `performSearch` compute what the steps
give in either order. -/
theorem day_type_steps_commute (H : Host) (s : UIState) (q : String) :
    (∀ (l : List EventRecord) (day : Option String) (types : List String),
      searchStep H q (filterByType types (filterByDay day l)) =
        searchStep H q (filterByDay day (filterByType types l))) ∧
    (applyFilters s).filteredEvents =
      filterByDay s.selectedDay (filterByType s.selectedEventTypes s.events) ∧
    (jsTrim q ≠ "" →
      (performSearch H s q).filteredEvents =
        searchStep H q (filterByDay s.selectedDay (filterByType s.selectedEventTypes s.events))) := by
  refine ⟨?_, ?_, ?_⟩
  · intro l day types
    rw [filterByDay_filterByType_comm]
  · simp [applyFilters, filterByDay_filterByType_comm]
  · intro hq
    have hq2 : (jsTrim q == "") = false := by simpa using hq
    simp [performSearch, hq2, filterByDay_filterByType_comm]

/-- Witness of C4: the query "lab" with the day "" and the type "Technical
Program" selected over the sample schedule. -/
theorem day_type_steps_commute_witness :
    (performSearch sampleHost { initialState sampleSchedule with
        selectedDay := some "Monday, June 2",
        selectedEventTypes := ["Technical Program"] } "lab").filteredEvents =
      searchStep sampleHost "lab" (filterByDay (some "Monday, June 2")
        (filterByType ["Technical Program"] sampleSchedule)) :=
  (day_type_steps_commute sampleHost { initialState sampleSchedule with
    selectedDay := some "Monday, June 2",
    selectedEventTypes := ["Technical Program"] } "lab").2.2 (by decide)

/-! ### Chronological sort -/

theorem orderedInsert_sorted {α : Type} (cmp : α → α → Option (Option Int))
    (le : α → α → Prop) (P : α → Prop)
    (htotal : ∀ a b, P a → P b → le a b ∨ le b a)
    (htrans : ∀ a b c, P a → P b → P c → le a b → le b c → le a c)
    (hcmp : ∀ a b, P a → P b → ∃ v, cmp a b = some v ∧ (isPositive v = true ↔ ¬ le a b))
    (a : α) (ha : P a) :
    ∀ l : List α, (∀ x ∈ l, P x) → l.Pairwise le →
      ∃ out, orderedInsert cmp a l = some out ∧ out.Pairwise le ∧ out.Perm (a :: l) := by
  intro l
  induction l with
  | nil =>
    intro _ _
    exact ⟨[a], rfl, List.pairwise_singleton _ _, List.Perm.refl _⟩
  | cons b l ih =>
    intro hP hsorted
    have hb : P b := hP b (by simp)
    have hl : ∀ x ∈ l, P x := fun x hx => hP x (List.mem_cons_of_mem _ hx)
    obtain ⟨hbl, hsl⟩ := List.pairwise_cons.1 hsorted
    obtain ⟨v, hv, hpos⟩ := hcmp a b ha hb
    by_cases hp : isPositive v = true
    · obtain ⟨rest, hrest, hrs, hrp⟩ := ih hl hsl
      have hba : le b a := (htotal a b ha hb).resolve_left (hpos.1 hp)
      refine ⟨b :: rest, by simp [orderedInsert, hv, hp, hrest], ?_,
        (hrp.cons b).trans (List.Perm.swap a b l)⟩
      refine List.pairwise_cons.2 ⟨?_, hrs⟩
      intro x hx
      rcases List.mem_cons.1 (hrp.subset hx) with e | m
      · rw [e]; exact hba
      · exact hbl x m
    · have hab : le a b := by
        by_contra hn
        exact hp (hpos.2 hn)
      refine ⟨a :: b :: l, by simp [orderedInsert, hv, hp], ?_, List.Perm.refl _⟩
      refine List.pairwise_cons.2 ⟨?_, hsorted⟩
      intro x hx
      rcases List.mem_cons.1 hx with e | m
      · rw [e]; exact hab
      · exact htrans a b x ha hb (hl x m) hab (hbl x m)

theorem jsSort_sorted {α : Type} (cmp : α → α → Option (Option Int))
    (le : α → α → Prop) (P : α → Prop)
    (htotal : ∀ a b, P a → P b → le a b ∨ le b a)
    (htrans : ∀ a b c, P a → P b → P c → le a b → le b c → le a c)
    (hcmp : ∀ a b, P a → P b → ∃ v, cmp a b = some v ∧ (isPositive v = true ↔ ¬ le a b)) :
    ∀ l : List α, (∀ x ∈ l, P x) →
      ∃ out, jsSort cmp l = some out ∧ out.Pairwise le ∧ out.Perm l := by
  intro l
  induction l with
  | nil =>
    intro _
    exact ⟨[], rfl, List.Pairwise.nil, List.Perm.refl _⟩
  | cons a l ih =>
    intro hP
    obtain ⟨sorted, hs, hsorted, hperm⟩ := ih (fun x hx => hP x (List.mem_cons_of_mem _ hx))
    have hPs : ∀ x ∈ sorted, P x := fun x hx => hP x (List.mem_cons_of_mem _ (hperm.subset hx))
    obtain ⟨out, ho, hos, hop⟩ :=
      orderedInsert_sorted cmp le P htotal htrans hcmp a (hP a (by simp)) sorted hPs hsorted
    exact ⟨out, by simp [jsSort, hs, ho], hos, hop.trans (hperm.cons a)⟩

theorem sortKey_eq_some (H : Host) (e : EventRecord) (k : Int × Int)
    (h : sortKey H e = some k) :
    dateKey H e.Date = some (some k.1) ∧ timeToMinutes e.TimeStart = some (some k.2) := by
  unfold sortKey at h
  split at h
  · rename_i d m hd hm
    simp at h
    subst h
    exact ⟨hd, hm⟩
  · simp at h

theorem compareEvents_of_keys (H : Host) (a b : EventRecord) (ka kb : Int × Int)
    (ha : sortKey H a = some ka) (hb : sortKey H b = some kb) :
    compareEvents H a b =
      some (some (if ka.1 ≠ kb.1 then ka.1 - kb.1 else ka.2 - kb.2)) := by
  obtain ⟨hda, hta⟩ := sortKey_eq_some H a ka ha
  obtain ⟨hdb, htb⟩ := sortKey_eq_some H b kb hb
  unfold compareEvents
  simp only [hda, hdb, Option.bind_eq_bind, Option.some_bind]
  by_cases hne : ka.1 = kb.1
  · simp [hne, hta, htb]
  · simp [hne]

theorem keyLe_total (a b : Int × Int) : keyLe a b ∨ keyLe b a := by
  unfold keyLe
  omega

theorem keyLe_trans (a b c : Int × Int) (h1 : keyLe a b) (h2 : keyLe b c) : keyLe a c := by
  unfold keyLe at *
  omega

theorem chronoLe_total (H : Host) (a b : EventRecord)
    (ha : (sortKey H a).isSome = true) (hb : (sortKey H b).isSome = true) :
    ChronoLe H a b ∨ ChronoLe H b a := by
  obtain ⟨ka, hka⟩ := Option.isSome_iff_exists.1 ha
  obtain ⟨kb, hkb⟩ := Option.isSome_iff_exists.1 hb
  rcases keyLe_total ka kb with h | h
  · exact Or.inl ⟨ka, kb, hka, hkb, h⟩
  · exact Or.inr ⟨kb, ka, hkb, hka, h⟩

theorem chronoLe_trans (H : Host) (a b c : EventRecord)
    (h1 : ChronoLe H a b) (h2 : ChronoLe H b c) : ChronoLe H a c := by
  obtain ⟨ka, kb, hka, hkb, hab⟩ := h1
  obtain ⟨kb2, kc, hkb2, hkc, hbc⟩ := h2
  have : kb2 = kb := by rw [hkb] at hkb2; exact (Option.some.inj hkb2).symm
  subst this
  exact ⟨ka, kc, hka, hkc, keyLe_trans ka kb2 kc hab hbc⟩

theorem compareEvents_chrono (H : Host) (a b : EventRecord)
    (ha : (sortKey H a).isSome = true) (hb : (sortKey H b).isSome = true) :
    ∃ v, compareEvents H a b = some v ∧ (isPositive v = true ↔ ¬ ChronoLe H a b) := by
  obtain ⟨ka, hka⟩ := Option.isSome_iff_exists.1 ha
  obtain ⟨kb, hkb⟩ := Option.isSome_iff_exists.1 hb
  refine ⟨_, compareEvents_of_keys H a b ka kb hka hkb, ?_⟩
  have hiff : ChronoLe H a b ↔ keyLe ka kb := by
    constructor
    · rintro ⟨ka2, kb2, h1, h2, h3⟩
      rw [hka] at h1; rw [hkb] at h2
      cases Option.some.inj h1
      cases Option.some.inj h2
      exact h3
    · intro h
      exact ⟨ka, kb, hka, hkb, h⟩
  rw [hiff]
  unfold keyLe
  by_cases hne : ka.1 = kb.1
  · have hv : (if ka.1 ≠ kb.1 then ka.1 - kb.1 else ka.2 - kb.2) = ka.2 - kb.2 := by
      simp [hne]
    rw [hv]
    simp only [isPositive, decide_eq_true_eq]
    constructor
    · intro h1 h2
      rcases h2 with h2 | ⟨_, h2⟩ <;> omega
    · intro h1
      by_contra h2
      exact h1 (Or.inr ⟨hne, by omega⟩)
  · have hv : (if ka.1 ≠ kb.1 then ka.1 - kb.1 else ka.2 - kb.2) = ka.1 - kb.1 := by
      simp [hne]
    rw [hv]
    simp only [isPositive, decide_eq_true_eq]
    constructor
    · intro h1 h2
      rcases h2 with h2 | ⟨h2, _⟩ <;> omega
    · intro h1
      by_contra h2
      exact h1 (Or.inl (by omega))

theorem lexDiff_sign (ka kb : Int × Int) :
    ((if ka.1 ≠ kb.1 then ka.1 - kb.1 else ka.2 - kb.2) < 0 ↔
      (ka.1 < kb.1 ∨ (ka.1 = kb.1 ∧ ka.2 < kb.2))) ∧
    ((if ka.1 ≠ kb.1 then ka.1 - kb.1 else ka.2 - kb.2) = 0 ↔ ka = kb) ∧
    (0 < (if ka.1 ≠ kb.1 then ka.1 - kb.1 else ka.2 - kb.2) ↔
      (kb.1 < ka.1 ∨ (kb.1 = ka.1 ∧ kb.2 < ka.2))) := by
  by_cases hne : ka.1 = kb.1
  · have hv : (if ka.1 ≠ kb.1 then ka.1 - kb.1 else ka.2 - kb.2) = ka.2 - kb.2 := by
      simp [hne]
    rw [hv]
    refine ⟨⟨?_, ?_⟩, ⟨?_, ?_⟩, ⟨?_, ?_⟩⟩
    · intro h; exact Or.inr ⟨hne, by omega⟩
    · intro h; rcases h with h | ⟨_, h⟩ <;> omega
    · intro h; exact Prod.ext hne (by omega)
    · intro h; rw [h]; omega
    · intro h; exact Or.inr ⟨hne.symm, by omega⟩
    · intro h; rcases h with h | ⟨_, h⟩ <;> omega
  · have hv : (if ka.1 ≠ kb.1 then ka.1 - kb.1 else ka.2 - kb.2) = ka.1 - kb.1 := by
      simp [hne]
    rw [hv]
    refine ⟨⟨?_, ?_⟩, ⟨?_, ?_⟩, ⟨?_, ?_⟩⟩
    · intro h; exact Or.inl (by omega)
    · intro h; rcases h with h | ⟨h, _⟩ <;> omega
    · intro h; omega
    · intro h; rw [h] at hne; exact absurd rfl hne
    · intro h; exact Or.inl (by omega)
    · intro h; rcases h with h | ⟨h, _⟩ <;> omega

theorem jsSort_compareEvents_sorted (H : Host) (l : List EventRecord)
    (hvalid : ∀ e ∈ l, (sortKey H e).isSome = true) :
    ∃ out, jsSort (compareEvents H) l = some out ∧ out.Pairwise (ChronoLe H) ∧ out.Perm l :=
  jsSort_sorted (compareEvents H) (ChronoLe H) (fun e => (sortKey H e).isSome = true)
    (chronoLe_total H) (fun a b c _ _ _ => chronoLe_trans H a b c)
    (compareEvents_chrono H) l hvalid

/-- Of two events of one day whose label the engine reads as a date, the one
without a start time compares before, and is sorted before, the one whose
start time is after 12:00 AM. -/
theorem compareEvents_absent_first (H : Host) :
    timeToMinutes (Cell.str "") = some (some 0) ∧
    timeToMinutes Cell.undefined = some (some 0) ∧
    ∀ (a b : EventRecord) (d mb : Int),
      dateKey H a.Date = some (some d) → dateKey H b.Date = some (some d) →
      (a.TimeStart = Cell.str "" ∨ a.TimeStart = Cell.undefined) →
      timeToMinutes b.TimeStart = some (some mb) → 0 < mb →
      (∃ v : Int, compareEvents H a b = some (some v) ∧ v < 0) ∧
      (∃ w : Int, compareEvents H b a = some (some w) ∧ 0 < w) ∧
      jsSort (compareEvents H) [a, b] = some [a, b] ∧
      jsSort (compareEvents H) [b, a] = some [a, b] := by
  refine ⟨by decide, by decide, ?_⟩
  intro a b d mb hda hdb hta htb hpos
  have hta0 : timeToMinutes a.TimeStart = some (some 0) := by
    rcases hta with h | h <;> (rw [h]; decide)
  have hka : sortKey H a = some (d, 0) := by simp [sortKey, hda, hta0]
  have hkb : sortKey H b = some (d, mb) := by simp [sortKey, hdb, htb]
  have hab := compareEvents_of_keys H a b _ _ hka hkb
  have hba := compareEvents_of_keys H b a _ _ hkb hka
  have hab2 : compareEvents H a b = some (some (-mb)) := by simpa using hab
  have hba2 : compareEvents H b a = some (some mb) := by simpa using hba
  have hnp : isPositive (some (-mb)) = false := by
    simp only [isPositive, decide_eq_false_iff_not]
    omega
  have hp : isPositive (some mb) = true := by
    simp only [isPositive, decide_eq_true_eq]
    omega
  refine ⟨⟨_, hab2, by omega⟩, ⟨_, hba2, hpos⟩, ?_, ?_⟩
  · simp [jsSort, orderedInsert, hab2, hnp]
  · simp [jsSort, orderedInsert, hba2, hp]

theorem compareTimes_of_exact (a b : EventRecord) (ma mb : Int)
    (ha : exactMinutes a.TimeStart = some ma) (hb : exactMinutes b.TimeStart = some mb) :
    compareTimes a b = some (some (ma - mb)) := by
  simp [compareTimes, exactMinutes_eq_some _ _ ha, exactMinutes_eq_some _ _ hb]

theorem jsSort_compareTimes_sorted (l : List EventRecord)
    (hexact : ∀ e ∈ l, (exactMinutes e.TimeStart).isSome = true) :
    ∃ out, jsSort compareTimes l = some out ∧ out.Pairwise MinutesLe ∧ out.Perm l := by
  refine jsSort_sorted compareTimes MinutesLe
    (fun e => (exactMinutes e.TimeStart).isSome = true) ?_ ?_ ?_ l hexact
  · intro a b ha hb
    obtain ⟨ma, hma⟩ := Option.isSome_iff_exists.1 ha
    obtain ⟨mb, hmb⟩ := Option.isSome_iff_exists.1 hb
    rcases le_total ma mb with h | h
    · exact Or.inl ⟨ma, mb, hma, hmb, h⟩
    · exact Or.inr ⟨mb, ma, hmb, hma, h⟩
  · intro a b c _ _ _ h1 h2
    obtain ⟨ma, mb, hma, hmb, hab⟩ := h1
    obtain ⟨mb2, mc, hmb2, hmc, hbc⟩ := h2
    rw [hmb] at hmb2
    cases Option.some.inj hmb2
    exact ⟨ma, mc, hma, hmc, le_trans hab hbc⟩
  · intro a b ha hb
    obtain ⟨ma, hma⟩ := Option.isSome_iff_exists.1 ha
    obtain ⟨mb, hmb⟩ := Option.isSome_iff_exists.1 hb
    refine ⟨_, compareTimes_of_exact a b ma mb hma hmb, ?_⟩
    simp only [isPositive, decide_eq_true_eq]
    constructor
    · rintro h ⟨ma2, mb2, h1, h2, h3⟩
      rw [hma] at h1; rw [hmb] at h2
      cases Option.some.inj h1
      cases Option.some.inj h2
      omega
    · intro h
      by_contra hn
      exact h ⟨ma, mb, hma, hmb, by omega⟩

/-- C15 as stated fails in the order in which a day's events are shown: of
the three events of the day "TBA", 9:00 AM, "noon" and no start time, the
text "noon" gives `NaN` minutes, the comparator returns `NaN` for it, and the
event without a start time stays after the 9:00 AM one. -/
theorem dayEvents_absent_counterexample :
    ¬ (∀ (filteredEvents : List EventRecord) (day : String) (out : List EventRecord),
        dayEvents filteredEvents day = some out →
        ∀ a b : EventRecord, (a.TimeStart = Cell.str "" ∨ a.TimeStart = Cell.undefined) →
          (∃ mb : Int, timeToMinutes b.TimeStart = some (some mb) ∧ 0 < mb) →
          ¬ [b, a].Sublist out) := by
  intro h
  have hx : ∃ b x a : EventRecord, dayEvents nanTimeSchedule "TBA" = some [b, x, a] ∧
      a.TimeStart = Cell.str "" ∧ timeToMinutes b.TimeStart = some (some 540) :=
    ⟨_, _, _, rfl, rfl, by decide⟩
  obtain ⟨b, x, a, hd, ha, hb⟩ := hx
  exact h nanTimeSchedule "TBA" [b, x, a] hd a b (Or.inl ha) ⟨540, hb, by decide⟩
    (List.Sublist.cons₂ b (List.Sublist.cons x (List.Sublist.refl [a])))

/-- C15 amended: `timeToMinutes` returns 0 for the empty string and for an
absent value, so in the order in which the events of one day are shown, when
the start times of that day's events all give numbers (the fragments parse,
to numbers below 10^14), no event with a start time after 12:00 AM comes
before an event without a start time. -/
theorem dayEvents_absent_first (filteredEvents : List EventRecord) (day : String)
    (hnum : ∀ e ∈ filteredEvents, e.Date = Cell.str day →
      (exactMinutes e.TimeStart).isSome = true) :
    timeToMinutes (Cell.str "") = some (some 0) ∧
    timeToMinutes Cell.undefined = some (some 0) ∧
    ∃ out, dayEvents filteredEvents day = some out ∧
      out.Perm (filteredEvents.filter (fun e => e.Date == Cell.str day)) ∧
      ∀ a b : EventRecord, (a.TimeStart = Cell.str "" ∨ a.TimeStart = Cell.undefined) →
        (∃ mb : Int, timeToMinutes b.TimeStart = some (some mb) ∧ 0 < mb) →
        ¬ [b, a].Sublist out := by
  refine ⟨by decide, by decide, ?_⟩
  obtain ⟨out, ho, hs, hp⟩ := jsSort_compareTimes_sorted
    (filteredEvents.filter (fun e => e.Date == Cell.str day)) (by
      intro e he
      have := List.mem_filter.1 he
      exact hnum e this.1 (by simpa using this.2))
  refine ⟨out, ho, hp, ?_⟩
  intro a b ha ⟨mb, hb, hpos⟩ hsub
  have hle : MinutesLe b a := by
    have := hs.sublist hsub
    exact (List.pairwise_cons.1 this).1 a (by simp)
  obtain ⟨kb, ka, hkb, hka, hle⟩ := hle
  have h1 := exactMinutes_eq_some _ _ hkb
  rw [hb] at h1
  have hkb2 : mb = kb := by simpa using h1
  have h2 := exactMinutes_eq_some _ _ hka
  have ha0 : timeToMinutes a.TimeStart = some (some 0) := by
    rcases ha with h | h <;> (rw [h]; decide)
  rw [ha0] at h2
  have hka2 : (0 : Int) = ka := by simpa using h2
  omega

/-- Witness of the amended C15: of the two events of the day "TBA", 9:00 AM
first in the canonical list, the one without a start time is shown first. -/
theorem dayEvents_absent_first_witness :
    ∃ out, dayEvents lateFirstSchedule "TBA" = some out ∧
      out.map (fun e => e.Event) = [Cell.str "Desk", Cell.str "Coffee"] ∧
      lateFirstSchedule.map (fun e => e.Event) = [Cell.str "Coffee", Cell.str "Desk"] := by
  obtain ⟨out, ho, -, -⟩ := (dayEvents_absent_first lateFirstSchedule "TBA" (by decide)).2.2
  refine ⟨out, ho, ?_, by decide⟩
  have hd : (dayEvents lateFirstSchedule "TBA").map (fun l => l.map (fun e => e.Event)) =
      some [Cell.str "Desk", Cell.str "Coffee"] := by decide
  rw [ho] at hd
  simpa using hd

/-- C16 fails on the code: the two rows with the day label "TBA", which no
engine reads as a date, stay in input order in the canonical list, 2:00 PM
before 9:00 AM: both parsed dates are `NaN`, the test
`dateA.getTime() !== dateB.getTime()` is true for them, and the comparator
returns `NaN` without comparing the start minutes. The per-day sort of
`renderSchedule` does put the same two events in the order of their start
minutes. -/
theorem buildPipeline_unparsed_order :
    ∃ x y : EventRecord, buildPipeline sampleHost unparsedDayRows = some [x, y] ∧
      x.Date = Cell.str "TBA" ∧ y.Date = Cell.str "TBA" ∧
      timeToMinutes x.TimeStart = some (some 840) ∧
      timeToMinutes y.TimeStart = some (some 540) ∧
      compareEvents sampleHost x y = some none ∧
      dayEvents [x, y] "TBA" = some [y, x] :=
  ⟨_, _, rfl, rfl, rfl, by decide, by decide, by decide, by decide⟩

/-- Over records whose date labels parse to valid dates and whose start
times give numbers of minutes, the comparator orders by the key
(parsedDate, startMinutes), the date first and the minutes when the dates are
equal, and the sort returns a permutation of the list that is non-decreasing
in that lexicographic key. -/
theorem jsSort_chronological (H : Host) (l : List EventRecord)
    (hvalid : ∀ e ∈ l, (sortKey H e).isSome = true) :
    (∀ a ∈ l, ∀ b ∈ l, ∃ (ka kb : Int × Int) (v : Int),
      sortKey H a = some ka ∧ sortKey H b = some kb ∧
      compareEvents H a b = some (some v) ∧
      (v < 0 ↔ (ka.1 < kb.1 ∨ (ka.1 = kb.1 ∧ ka.2 < kb.2))) ∧
      (v = 0 ↔ ka = kb) ∧
      (0 < v ↔ (kb.1 < ka.1 ∨ (kb.1 = ka.1 ∧ kb.2 < ka.2)))) ∧
    ∃ out, jsSort (compareEvents H) l = some out ∧ out.Perm l ∧
      out.Pairwise (fun a b => ∃ ka kb, sortKey H a = some ka ∧ sortKey H b = some kb ∧
        (ka.1 < kb.1 ∨ (ka.1 = kb.1 ∧ ka.2 ≤ kb.2))) := by
  refine ⟨?_, ?_⟩
  · intro a ha b hb
    obtain ⟨ka, hka⟩ := Option.isSome_iff_exists.1 (hvalid a ha)
    obtain ⟨kb, hkb⟩ := Option.isSome_iff_exists.1 (hvalid b hb)
    obtain ⟨h1, h2, h3⟩ := lexDiff_sign ka kb
    exact ⟨ka, kb, _, hka, hkb, compareEvents_of_keys H a b ka kb hka hkb, h1, h2, h3⟩
  · obtain ⟨out, ho, hs, hp⟩ := jsSort_compareEvents_sorted H l hvalid
    exact ⟨out, ho, hp, hs⟩

/-- The three rows of two parsed days are sorted into a list that is
non-decreasing in the key. -/
theorem jsSort_chronological_example :
    ∃ out, jsSort (compareEvents sampleHost) parsedDayEvents = some out ∧
      out.Perm parsedDayEvents ∧
      out.Pairwise (fun a b => ∃ ka kb, sortKey sampleHost a = some ka ∧
        sortKey sampleHost b = some kb ∧ (ka.1 < kb.1 ∨ (ka.1 = kb.1 ∧ ka.2 ≤ kb.2))) :=
  (jsSort_chronological sampleHost parsedDayEvents (by decide)).2

/-- C17 as stated fails in both parts: with no type selected the visible
list of a day holds events whose eventTypes share no tag with the empty
selected set, and for the day label "TBA", which is not read as a date, the
visible events are 2:00 PM before 9:00 AM. -/
theorem applyFilters_sorted_counterexample :
    ¬ (∀ (H : Host) (rows : List RawRow) (canon : List EventRecord) (s : UIState)
        (day : String), buildPipeline H rows = some canon → s.events = canon →
        s.selectedDay = some day →
        ∀ e ∈ (applyFilters s).filteredEvents,
          e.Date = Cell.str day ∧ ∃ t ∈ e.EventTypes, t ∈ s.selectedEventTypes) ∧
    ¬ (∀ (H : Host) (rows : List RawRow) (canon : List EventRecord) (s : UIState)
        (day : String), buildPipeline H rows = some canon → s.events = canon →
        s.selectedDay = some day →
        (applyFilters s).filteredEvents.Pairwise (fun a b =>
          ∀ ma mb : Int, timeToMinutes a.TimeStart = some (some ma) →
            timeToMinutes b.TimeStart = some (some mb) → ma ≤ mb)) := by
  have hx : ∃ x y : EventRecord, buildPipeline sampleHost unparsedDayRows = some [x, y] ∧
      (applyFilters (selectedState [x, y] "TBA" [])).filteredEvents =
        [x, y] ∧
      x.EventTypes = ["Registration"] ∧
      timeToMinutes x.TimeStart = some (some 840) ∧
      timeToMinutes y.TimeStart = some (some 540) :=
    ⟨_, _, rfl, by decide, by decide, by decide, by decide⟩
  obtain ⟨x, y, hp, hf, ht, hx, hy⟩ := hx
  refine ⟨?_, ?_⟩
  · intro h
    have := h sampleHost unparsedDayRows [x, y]
      (selectedState [x, y] "TBA" []) "TBA" hp rfl rfl x
      (by rw [hf]; simp)
    obtain ⟨-, t, -, hmem⟩ := this
    exact absurd hmem (List.not_mem_nil t)
  · intro h
    have := h sampleHost unparsedDayRows [x, y]
      (selectedState [x, y] "TBA" []) "TBA" hp rfl rfl
    rw [hf] at this
    have := (List.pairwise_cons.1 this).1 y (by simp) 840 540 hx hy
    omega

theorem dateKey_same_date (H : Host) (a b : EventRecord) (ka kb : Int × Int)
    (ha : sortKey H a = some ka) (hb : sortKey H b = some kb) (hd : a.Date = b.Date) :
    ka.1 = kb.1 := by
  have h1 := (sortKey_eq_some H a ka ha).1
  have h2 := (sortKey_eq_some H b kb hb).1
  rw [hd, h2] at h1
  simpa using h1.symm

/-- C17 amended: for a canonical list whose events all have a sort key (the
day labels parse and the start times give numbers of minutes), a selected day
that is not the empty string and a selected type set that is not empty, with
an empty query, the visible list holds only events of that day one of whose
eventTypes is selected, in non-decreasing order of start minutes. -/
theorem applyFilters_sorted (H : Host) (rows : List RawRow) (canon : List EventRecord)
    (s : UIState) (day : String) (hp : buildPipeline H rows = some canon)
    (hvalid : ∀ e ∈ canon, (sortKey H e).isSome = true) (hs : s.events = canon)
    (hday : s.selectedDay = some day) (hne : day ≠ "") (htypes : s.selectedEventTypes ≠ []) :
    (∀ e ∈ (applyFilters s).filteredEvents,
      e.Date = Cell.str day ∧ ∃ t ∈ e.EventTypes, t ∈ s.selectedEventTypes) ∧
    (applyFilters s).filteredEvents.Pairwise (fun a b =>
      ∃ ma mb : Int, timeToMinutes a.TimeStart = some (some ma) ∧
        timeToMinutes b.TimeStart = some (some mb) ∧ ma ≤ mb) := by
  have hmem : ∀ e ∈ (applyFilters s).filteredEvents,
      e.Date = Cell.str day ∧ ∃ t ∈ e.EventTypes, t ∈ s.selectedEventTypes := by
    intro e he
    rw [applyFilters_day_type s day hday hne] at he
    have := (List.mem_filter.1 he).2
    simp only [decide_eq_true_eq] at this
    exact ⟨this.1, this.2 htypes⟩
  refine ⟨hmem, ?_⟩
  have hsorted : canon.Pairwise (ChronoLe H) := by
    unfold buildPipeline at hp
    cases hb : mapRaising (buildRecord H) rows with
    | none => simp [hb] at hp
    | some built =>
      simp [hb] at hp
      have hperm := jsSort_perm _ _ _ hp
      obtain ⟨out, ho, hso, -⟩ := jsSort_compareEvents_sorted H (attachSessions built)
        (fun e he => hvalid e (hperm.symm.subset he))
      rw [hp] at ho
      cases Option.some.inj ho
      exact hso
  have hvis : (applyFilters s).filteredEvents.Pairwise (ChronoLe H) :=
    hsorted.sublist (hs ▸ applyFilters_sublist s)
  have hvis2 : (applyFilters s).filteredEvents.Pairwise (fun a b =>
      ChronoLe H a b ∧ a.Date = b.Date) := by
    rw [List.pairwise_iff_forall_sublist] at hvis ⊢
    intro a b hab
    have ha : a ∈ (applyFilters s).filteredEvents := hab.subset (by simp)
    have hb : b ∈ (applyFilters s).filteredEvents := hab.subset (by simp)
    exact ⟨hvis hab, by rw [(hmem a ha).1, (hmem b hb).1]⟩
  refine hvis2.imp ?_
  intro a b hab
  obtain ⟨⟨ka, kb, hka, hkb, hle⟩, hd⟩ := hab
  have hdate := dateKey_same_date H a b ka kb hka hkb hd
  refine ⟨ka.2, kb.2, (sortKey_eq_some H a ka hka).2, (sortKey_eq_some H b kb hkb).2, ?_⟩
  unfold keyLe at hle
  omega

/-- Witness of the amended C17: the day "2025, June 2" and the types
"Registration" and "Technical Program" over the three parsed rows. -/
theorem applyFilters_sorted_witness :
    ∃ canon, buildPipeline sampleHost parsedDayRows = some canon ∧
      (applyFilters (selectedState canon "2025, June 2"
        ["Registration", "Technical Program"])).filteredEvents.Pairwise
        (fun a b => ∃ ma mb : Int, timeToMinutes a.TimeStart = some (some ma) ∧
          timeToMinutes b.TimeStart = some (some mb) ∧ ma ≤ mb) := by
  refine ⟨_, rfl, ?_⟩
  exact (applyFilters_sorted sampleHost parsedDayRows _
    (selectedState _ "2025, June 2" ["Registration", "Technical Program"])
    "2025, June 2" rfl (by decide) rfl rfl (by decide) (by decide)).2

/-! ### Case of the query -/

/-- C18 as stated fails for a query whose upper-cased form does not
lower-case back: the query "ß" finds the event titled "Straße", its
upper-cased form "SS" does not. -/
theorem performSearch_case_counterexample :
    ¬ (∀ (H : Host) (s : UIState) (q : String),
        (performSearch H s (H.toUpperCase q)).filteredEvents =
          (performSearch H s q).filteredEvents) := by
  intro h
  exact absurd (h sampleHost (initialState sharpSSchedule) "ß") (by decide)

/-- C18 amended: for a query whose upper-cased and lower-cased forms
lower-case to the lower-cased query and are blank exactly when the query is,
`performSearch` gives the same state for the query, for its upper-cased form
and for its lower-cased form. -/
theorem performSearch_case_insensitive (H : Host) (s : UIState) (q : String)
    (hup : H.toLowerCase (H.toUpperCase q) = H.toLowerCase q)
    (hlow : H.toLowerCase (H.toLowerCase q) = H.toLowerCase q)
    (htu : jsTrim (H.toUpperCase q) = "" ↔ jsTrim q = "")
    (htl : jsTrim (H.toLowerCase q) = "" ↔ jsTrim q = "") :
    performSearch H s (H.toUpperCase q) = performSearch H s q ∧
    performSearch H s (H.toLowerCase q) = performSearch H s q := by
  have h1 : (jsTrim (H.toUpperCase q) == "") = (jsTrim q == "") := by
    rw [Bool.eq_iff_iff]; simpa using htu
  have h2 : (jsTrim (H.toLowerCase q) == "") = (jsTrim q == "") := by
    rw [Bool.eq_iff_iff]; simpa using htl
  refine ⟨?_, ?_⟩
  · simp only [performSearch, searchStep, h1, hup]
  · simp only [performSearch, searchStep, h2, hlow]

/-- Witness of the amended C18: the queries "LAB", "Lab" and "lab" each find
the event titled "Collaborative Lab Tour" of the sample schedule. -/
theorem performSearch_case_insensitive_witness :
    performSearch sampleHost (initialState sampleSchedule) (sampleHost.toUpperCase "Lab") =
      performSearch sampleHost (initialState sampleSchedule) "Lab" ∧
    performSearch sampleHost (initialState sampleSchedule) (sampleHost.toLowerCase "Lab") =
      performSearch sampleHost (initialState sampleSchedule) "Lab" ∧
    sampleHost.toUpperCase "Lab" = "LAB" ∧ sampleHost.toLowerCase "Lab" = "lab" ∧
    (performSearch sampleHost (initialState sampleSchedule) "Lab").filteredEvents.map
      (fun e => e.Event) = [Cell.str "Collaborative Lab Tour"] :=
  have h := performSearch_case_insensitive sampleHost (initialState sampleSchedule) "Lab"
    (by decide) (by decide) (by decide) (by decide)
  ⟨h.1, h.2, by decide, by decide, by decide⟩

/-! ### Cells that are not in the expected shape -/

/-- C19 fails on the code: a row whose "Event Type" cell holds a number makes
the record builder raise, two rows without a "Date" cell make the sort
comparator raise, and a number in a "Time Start" cell, which
`formatExcelTime` passes through, makes `timeToMinutes` raise in the
comparator; each time no canonical list is produced. -/
theorem buildPipeline_raises :
    buildPipeline sampleHost numericTypeRows = none ∧
    buildPipeline sampleHost missingDateRows = none ∧
    buildPipeline sampleHost numericTimeRows = none := by
  decide

/-! ### Event type buttons -/

theorem unitsLt_neg_trans : ∀ a b c : List Nat,
    unitsLt a b = false → unitsLt b c = false → unitsLt a c = false := by
  intro a
  induction a with
  | nil =>
    intro b c h1 h2
    cases b with
    | nil => exact h2
    | cons y bs => simp [unitsLt] at h1
  | cons x as ih =>
    intro b c h1 h2
    cases c with
    | nil => rfl
    | cons z cs =>
      cases b with
      | nil => simp [unitsLt] at h2
      | cons y bs =>
        simp only [unitsLt, Bool.or_eq_false_iff, decide_eq_false_iff_not,
          Bool.and_eq_false_iff, beq_eq_false_iff_ne, ne_eq] at h1 h2 ⊢
        refine ⟨by omega, ?_⟩
        by_cases hxz : x = z
        · right
          have hxy : x = y := by omega
          have hyz : y = z := by omega
          exact ih bs cs (h1.2.resolve_left (fun h => h hxy))
            (h2.2.resolve_left (fun h => h hyz))
        · exact Or.inl hxz

theorem unitsLt_asymm : ∀ a b : List Nat, unitsLt a b = true → unitsLt b a = false := by
  intro a
  induction a with
  | nil =>
    intro b _
    cases b <;> rfl
  | cons x as ih =>
    intro b h
    cases b with
    | nil => simp [unitsLt] at h
    | cons y bs =>
      simp only [unitsLt, Bool.or_eq_true, decide_eq_true_eq, Bool.and_eq_true, beq_iff_eq,
        Bool.or_eq_false_iff, decide_eq_false_iff_not, Bool.and_eq_false_iff,
        beq_eq_false_iff_ne, ne_eq] at h ⊢
      rcases h with h | ⟨h1, h2⟩
      · exact ⟨by omega, Or.inl (by omega)⟩
      · exact ⟨by omega, Or.inr (ih bs h2)⟩

theorem unitsLt_connected : ∀ a b : List Nat,
    unitsLt a b = false → unitsLt b a = false → a = b := by
  intro a
  induction a with
  | nil =>
    intro b h1 _
    cases b with
    | nil => rfl
    | cons y bs => simp [unitsLt] at h1
  | cons x as ih =>
    intro b h1 h2
    cases b with
    | nil => simp [unitsLt] at h2
    | cons y bs =>
      simp only [unitsLt, Bool.or_eq_false_iff, decide_eq_false_iff_not,
        Bool.and_eq_false_iff, beq_eq_false_iff_ne, ne_eq] at h1 h2
      have hxy : x = y := by omega
      subst hxy
      rw [ih bs (h1.2.resolve_left (fun h => h rfl)) (h2.2.resolve_left (fun h => h rfl))]

theorem utf16Units_head (c : Char) :
    (c.toNat < 0x10000 ∧ utf16Units c = [c.toNat] ∧
      (c.toNat < 0xD800 ∨ 0xDFFF < c.toNat)) ∨
    (0x10000 ≤ c.toNat ∧ c.toNat < 0x110000 ∧
      utf16Units c =
        [0xD800 + (c.toNat - 0x10000) / 0x400, 0xDC00 + (c.toNat - 0x10000) % 0x400]) := by
  have hv : c.toNat < 0xD800 ∨ (0xDFFF < c.toNat ∧ c.toNat < 0x110000) := c.valid
  by_cases h : c.toNat < 0x10000
  · left
    refine ⟨h, by simp [utf16Units, h], ?_⟩
    omega
  · right
    refine ⟨by omega, by omega, by simp [utf16Units, h]⟩

theorem char_eq_of_toNat (c d : Char) (h : c.toNat = d.toNat) : c = d := by
  apply Char.ext
  apply UInt32.ext
  exact h

theorem codeUnits_injective_aux : ∀ l1 l2 : List Char,
    l1.flatMap utf16Units = l2.flatMap utf16Units → l1 = l2 := by
  intro l1
  induction l1 with
  | nil =>
    intro l2 h
    cases l2 with
    | nil => rfl
    | cons d ds =>
      rcases utf16Units_head d with ⟨-, hd, -⟩ | ⟨-, -, hd⟩ <;>
        simp [List.flatMap_cons, hd] at h
  | cons c cs ih =>
    intro l2 h
    cases l2 with
    | nil =>
      rcases utf16Units_head c with ⟨-, hc, -⟩ | ⟨-, -, hc⟩ <;>
        simp [List.flatMap_cons, hc] at h
    | cons d ds =>
      simp only [List.flatMap_cons] at h
      rcases utf16Units_head c with ⟨hc1, hc, hc2⟩ | ⟨hc1, hc2, hc⟩ <;>
        rcases utf16Units_head d with ⟨hd1, hd, hd2⟩ | ⟨hd1, hd2, hd⟩
      · rw [hc, hd] at h
        simp only [List.singleton_append, List.cons.injEq] at h
        rw [char_eq_of_toNat c d h.1, ih ds h.2]
      · rw [hc, hd] at h
        simp only [List.singleton_append, List.cons_append, List.nil_append,
          List.cons.injEq] at h
        omega
      · rw [hc, hd] at h
        simp only [List.singleton_append, List.cons_append, List.nil_append,
          List.cons.injEq] at h
        omega
      · rw [hc, hd] at h
        simp only [List.cons_append, List.nil_append, List.cons.injEq] at h
        obtain ⟨h1, h2, h3⟩ := h
        have : c.toNat = d.toNat := by omega
        rw [char_eq_of_toNat c d this, ih ds h3]

theorem codeUnits_injective (a b : String) (h : codeUnits a = codeUnits b) : a = b :=
  String.ext (codeUnits_injective_aux a.data b.data h)

theorem setAdd_spec (set : List String) (x : String) (hn : set.Nodup) :
    (setAdd set x).Nodup ∧ ∀ t, t ∈ setAdd set x ↔ t ∈ set ∨ t = x := by
  unfold setAdd
  by_cases hx : x ∈ set
  · have hc : set.contains x = true := by simpa using hx
    simp only [hc, if_true]
    refine ⟨hn, fun t => ⟨Or.inl, ?_⟩⟩
    rintro (h | h)
    · exact h
    · rw [h]; exact hx
  · have hc : set.contains x = false := by simpa using hx
    simp only [hc, Bool.false_eq_true, if_false]
    refine ⟨?_, fun t => by simp⟩
    rw [List.nodup_append]
    refine ⟨hn, List.nodup_singleton x, ?_⟩
    intro a ha hb
    simp at hb
    rw [hb] at ha
    exact hx ha

theorem addTypes_spec (types : List String) :
    ∀ set : List String, set.Nodup →
      (types.foldl (fun set type =>
        if type != "" && type != "Session" then setAdd set type else set) set).Nodup ∧
      ∀ t, t ∈ types.foldl (fun set type =>
          if type != "" && type != "Session" then setAdd set type else set) set ↔
        t ∈ set ∨ (t ∈ types ∧ t ≠ "" ∧ t ≠ "Session") := by
  induction types with
  | nil => intro set hn; exact ⟨hn, fun t => by simp⟩
  | cons a types ih =>
    intro set hn
    simp only [List.foldl_cons]
    by_cases ha : (a != "" && a != "Session") = true
    · simp only [ha, if_true]
      obtain ⟨hn2, hm2⟩ := setAdd_spec set a hn
      obtain ⟨hn3, hm3⟩ := ih (setAdd set a) hn2
      refine ⟨hn3, fun t => ?_⟩
      rw [hm3 t, hm2 t]
      simp only [Bool.and_eq_true, bne_iff_ne, ne_eq] at ha
      constructor
      · rintro ((h | h) | h)
        · exact Or.inl h
        · exact Or.inr ⟨by simp [h], by rw [h]; exact ha.1, by rw [h]; exact ha.2⟩
        · exact Or.inr ⟨List.mem_cons_of_mem _ h.1, h.2⟩
      · rintro (h | ⟨h1, h2⟩)
        · exact Or.inl (Or.inl h)
        · rcases List.mem_cons.1 h1 with e | m
          · exact Or.inl (Or.inr e)
          · exact Or.inr ⟨m, h2⟩
    · simp only [ha, Bool.false_eq_true, if_false]
      obtain ⟨hn3, hm3⟩ := ih set hn
      refine ⟨hn3, fun t => ?_⟩
      rw [hm3 t]
      simp only [Bool.and_eq_true, bne_iff_ne, ne_eq, not_and_or, not_not] at ha
      constructor
      · rintro (h | h)
        · exact Or.inl h
        · exact Or.inr ⟨List.mem_cons_of_mem _ h.1, h.2⟩
      · rintro (h | ⟨h1, h2, h3⟩)
        · exact Or.inl h
        · rcases List.mem_cons.1 h1 with e | m
          · subst e
            rcases ha with ha | ha
            · exact absurd ha h2
            · exact absurd ha h3
          · exact Or.inr ⟨m, h2, h3⟩

theorem addEvents_spec (events : List EventRecord) :
    ∀ set : List String, set.Nodup →
      (events.foldl (fun set event =>
        event.EventTypes.foldl (fun set type =>
          if type != "" && type != "Session" then setAdd set type else set) set) set).Nodup ∧
      ∀ t, t ∈ events.foldl (fun set event =>
          event.EventTypes.foldl (fun set type =>
            if type != "" && type != "Session" then setAdd set type else set) set) set ↔
        t ∈ set ∨ ((∃ e ∈ events, t ∈ e.EventTypes) ∧ t ≠ "" ∧ t ≠ "Session") := by
  induction events with
  | nil => intro set hn; exact ⟨hn, fun t => by simp⟩
  | cons a events ih =>
    intro set hn
    simp only [List.foldl_cons]
    obtain ⟨hn2, hm2⟩ := addTypes_spec a.EventTypes set hn
    obtain ⟨hn3, hm3⟩ := ih _ hn2
    refine ⟨hn3, fun t => ?_⟩
    rw [hm3 t, hm2 t]
    constructor
    · rintro ((h | ⟨h1, h2⟩) | ⟨⟨e, he, hte⟩, h2⟩)
      · exact Or.inl h
      · exact Or.inr ⟨⟨a, by simp, h1⟩, h2⟩
      · exact Or.inr ⟨⟨e, List.mem_cons_of_mem _ he, hte⟩, h2⟩
    · rintro (h | ⟨⟨e, he, hte⟩, h2⟩)
      · exact Or.inl (Or.inl h)
      · rcases List.mem_cons.1 he with e1 | m
        · subst e1
          exact Or.inl (Or.inr ⟨hte, h2⟩)
        · exact Or.inr ⟨⟨e, m, hte⟩, h2⟩

theorem defaultCompare_spec (a b : String) :
    ∃ v, defaultCompare a b = some v ∧
      (isPositive v = true ↔ ¬ (unitsLt (codeUnits b) (codeUnits a) = false)) := by
  refine ⟨_, rfl, ?_⟩
  by_cases h1 : unitsLt (codeUnits a) (codeUnits b) = true
  · have h2 := unitsLt_asymm _ _ h1
    simp [h1, h2, isPositive]
  · by_cases h2 : unitsLt (codeUnits b) (codeUnits a) = true
    · simp [h1, h2, isPositive]
    · simp [h1, h2, isPositive]

/-- C20 as stated fails in the order: for the tags alpha, Zeta, Beta and
apple the buttons are Beta, Zeta, alpha, apple, which is not alphabetical
order, because the default sort puts every upper-case letter before every
lower-case one. -/
theorem uniqueEventTypes_alphabetical_counterexample :
    ¬ (∀ (events : List EventRecord) (out : List String),
        uniqueEventTypes events = some out → out.Pairwise AlphabeticalLe) := by
  intro h
  have ho : uniqueEventTypes mixedCaseSchedule = some ["Beta", "Zeta", "alpha", "apple"] := by
    decide
  exact absurd (h mixedCaseSchedule _ ho) (by decide)

/-- C20 amended: the labels of the type buttons are exactly the tags that
occur in the eventTypes of some top-level event and are neither empty nor
"Session", each once, in strictly ascending order of their UTF-16 code units,
the order in which the default sort puts strings. -/
theorem uniqueEventTypes_spec (events : List EventRecord) :
    ∃ out, uniqueEventTypes events = some out ∧
      (∀ t, t ∈ out ↔ ((∃ e ∈ events, t ∈ e.EventTypes) ∧ t ≠ "" ∧ t ≠ "Session")) ∧
      out.Nodup ∧
      out.Pairwise (fun a b => unitsLt (codeUnits a) (codeUnits b) = true) := by
  obtain ⟨hn, hm⟩ := addEvents_spec events [] List.nodup_nil
  obtain ⟨out, ho, hs, hp⟩ := jsSort_sorted defaultCompare
    (fun a b => unitsLt (codeUnits b) (codeUnits a) = false) (fun _ => True)
    (fun a b _ _ => by
      by_cases h : unitsLt (codeUnits b) (codeUnits a) = true
      · exact Or.inr (unitsLt_asymm _ _ h)
      · exact Or.inl (by simpa using h))
    (fun a b c _ _ _ h1 h2 => unitsLt_neg_trans _ _ _ h2 h1)
    (fun a b _ _ => defaultCompare_spec a b) (allEventTypes events) (fun _ _ => trivial)
  have hnd : out.Nodup := hp.nodup_iff.2 hn
  refine ⟨out, ho, ?_, hnd, ?_⟩
  · intro t
    rw [hp.mem_iff]
    have := hm t
    simp only [List.not_mem_nil, false_or] at this
    exact this
  · have hboth : out.Pairwise (fun a b =>
        unitsLt (codeUnits b) (codeUnits a) = false ∧ a ≠ b) :=
      hs.and hnd
    refine hboth.imp ?_
    intro a b hab
    by_contra hlt
    exact hab.2 (codeUnits_injective a b
      (unitsLt_connected _ _ (by simpa using hlt) hab.1))

/-! ### Search session -/

theorem applyFilters_frame (s : UIState) :
    (applyFilters s).events = s.events ∧ (applyFilters s).selectedDay = s.selectedDay ∧
    (applyFilters s).selectedEventTypes = s.selectedEventTypes ∧
    (applyFilters s).isSearchActive = s.isSearchActive ∧
    (applyFilters s).prevFilterState = s.prevFilterState ∧
    (applyFilters s).searchInput = s.searchInput :=
  ⟨rfl, rfl, rfl, rfl, rfl, rfl⟩

theorem performSearch_frame (H : Host) (s : UIState) (q : String) :
    (performSearch H s q).events = s.events ∧
    (performSearch H s q).selectedDay = s.selectedDay ∧
    (performSearch H s q).selectedEventTypes = s.selectedEventTypes ∧
    (performSearch H s q).isSearchActive = s.isSearchActive ∧
    (performSearch H s q).prevFilterState = s.prevFilterState ∧
    (performSearch H s q).searchInput = s.searchInput := by
  unfold performSearch
  split
  · split
    · exact applyFilters_frame s
    · exact ⟨rfl, rfl, rfl, rfl, rfl, rfl⟩
  · exact ⟨rfl, rfl, rfl, rfl, rfl, rfl⟩

theorem refresh_frame (H : Host) (s : UIState) :
    (refresh H s).events = s.events ∧ (refresh H s).selectedDay = s.selectedDay ∧
    (refresh H s).selectedEventTypes = s.selectedEventTypes ∧
    (refresh H s).isSearchActive = s.isSearchActive ∧
    (refresh H s).prevFilterState = s.prevFilterState := by
  unfold refresh
  split
  · obtain ⟨h1, h2, h3, h4, h5, -⟩ := performSearch_frame H s s.searchInput
    exact ⟨h1, h2, h3, h4, h5⟩
  · obtain ⟨h1, h2, h3, h4, h5, -⟩ := applyFilters_frame s
    exact ⟨h1, h2, h3, h4, h5⟩

theorem applyAction_frame (H : Host) (s : UIState) (a : SearchAction) :
    (applyAction H s a).events = s.events ∧
    (applyAction H s a).isSearchActive = s.isSearchActive ∧
    (applyAction H s a).prevFilterState = s.prevFilterState := by
  cases a with
  | selectDay day =>
    obtain ⟨h1, -, -, h4, h5⟩ := refresh_frame H { s with selectedDay := day }
    exact ⟨h1, h4, h5⟩
  | toggleType eventType =>
    obtain ⟨h1, -, -, h4, h5⟩ := refresh_frame H { s with
      selectedEventTypes :=
        if s.selectedEventTypes.contains eventType then
          s.selectedEventTypes.filter (fun t => t != eventType)
        else setAdd s.selectedEventTypes eventType }
    exact ⟨h1, h4, h5⟩
  | editQuery text =>
    obtain ⟨h1, -, -, h4, h5, -⟩ := performSearch_frame H { s with searchInput := text } text
    exact ⟨h1, h4, h5⟩

theorem foldl_applyAction_frame (H : Host) (actions : List SearchAction) :
    ∀ s : UIState,
      (actions.foldl (applyAction H) s).events = s.events ∧
      (actions.foldl (applyAction H) s).isSearchActive = s.isSearchActive ∧
      (actions.foldl (applyAction H) s).prevFilterState = s.prevFilterState := by
  induction actions with
  | nil => intro s; exact ⟨rfl, rfl, rfl⟩
  | cons a actions ih =>
    intro s
    obtain ⟨h1, h2, h3⟩ := ih (applyAction H s a)
    obtain ⟨g1, g2, g3⟩ := applyAction_frame H s a
    exact ⟨h1.trans g1, h2.trans g2, h3.trans g3⟩

/-- C21: from a state in which search is closed, opening search, then any
sequence of day selections, type toggles and query edits, then clearing
search leaves the selected day and the selected type set as they were when
search was opened, leaves search closed, and leaves as visible list the
day/type-filtered list of that restored state. -/
theorem search_session_restores (H : Host) (s : UIState) (hs : s.isSearchActive = false)
    (actions : List SearchAction) :
    (actions.foldl (applyAction H) (toggleSearch s)).isSearchActive = true ∧
    (clearSearch (actions.foldl (applyAction H) (toggleSearch s))).selectedDay =
      s.selectedDay ∧
    (clearSearch (actions.foldl (applyAction H) (toggleSearch s))).selectedEventTypes =
      s.selectedEventTypes ∧
    (clearSearch (actions.foldl (applyAction H) (toggleSearch s))).isSearchActive = false ∧
    (clearSearch (actions.foldl (applyAction H) (toggleSearch s))).filteredEvents =
      filterByType s.selectedEventTypes (filterByDay s.selectedDay s.events) ∧
    (clearSearch (actions.foldl (applyAction H) (toggleSearch s))).filteredEvents =
      (applyFilters s).filteredEvents := by
  have hopen : toggleSearch s =
      { s with
        prevFilterState := some
          { selectedDay := s.selectedDay
            selectedEventTypes := s.selectedEventTypes
            filteredEvents := s.filteredEvents }
        isSearchActive := true } := by
    simp [toggleSearch, hs]
  obtain ⟨he, ha, hp⟩ := foldl_applyAction_frame H actions (toggleSearch s)
  rw [hopen] at he ha hp
  simp only at he ha hp
  rw [← hopen] at he ha hp
  have hclear : clearSearch (actions.foldl (applyAction H) (toggleSearch s)) =
      applyFilters { actions.foldl (applyAction H) (toggleSearch s) with
        searchInput := ""
        isSearchActive := false
        selectedDay := s.selectedDay
        selectedEventTypes := s.selectedEventTypes } := by
    simp [clearSearch, hp]
  refine ⟨ha, ?_, ?_, ?_, ?_, ?_⟩
  · rw [hclear]; rfl
  · rw [hclear]; rfl
  · rw [hclear]; rfl
  · rw [hclear]
    simp [applyFilters, he]
  · rw [hclear]
    simp [applyFilters, he]

/-- Witness of C21: search is opened with the day "Monday, June 2" and the
type "Registration" selected; all days are chosen, a type is added, the query
"lab" is typed and the first type is removed; clearing restores the day, the
type and the one visible event. -/
theorem search_session_restores_witness :
    (clearSearch ([SearchAction.selectDay none, SearchAction.toggleType "Technical Program",
        SearchAction.editQuery "lab", SearchAction.toggleType "Registration"].foldl
        (applyAction sampleHost)
        (toggleSearch (selectedState sampleSchedule "Monday, June 2"
          ["Registration"])))).selectedDay = some "Monday, June 2" ∧
    (clearSearch ([SearchAction.selectDay none, SearchAction.toggleType "Technical Program",
        SearchAction.editQuery "lab", SearchAction.toggleType "Registration"].foldl
        (applyAction sampleHost)
        (toggleSearch (selectedState sampleSchedule "Monday, June 2"
          ["Registration"])))).selectedEventTypes = ["Registration"] :=
  have h := search_session_restores sampleHost
    (selectedState sampleSchedule "Monday, June 2" ["Registration"]) rfl
    [SearchAction.selectDay none, SearchAction.toggleType "Technical Program",
     SearchAction.editQuery "lab", SearchAction.toggleType "Registration"]
  ⟨h.2.1, h.2.2.1⟩

/-! ### Texts that are not a date-time -/

/-- C22 as stated fails in the text it names: for "TBD", which has a 'T' and
is an Invalid Date, `formatExcelTime` does not return "NaN:NaN AM". -/
theorem formatExcelTime_invalid_counterexample :
    ¬ (∀ (H : Host) (s : String), s ≠ "" → jsIncludes s "T" = true →
        H.parseClock s = none → formatExcelTime H (Cell.str s) = Cell.str "NaN:NaN AM") := by
  intro h
  exact absurd (h sampleHost "TBD" (by decide) (by decide) (by decide)) (by decide)

/-- C22 amended: for a text with a 'T' that the engine reads as an Invalid
Date, `formatExcelTime` does not return the text unchanged: it returns
"12:NaN AM" (the `NaN` hour is falsy and is shown as 12), and
`timeToMinutes` of that result is `NaN`, not an integer. -/
theorem formatExcelTime_invalid (H : Host) (s : String) (hT : jsIncludes s "T" = true)
    (hp : H.parseClock s = none) :
    formatExcelTime H (Cell.str s) = Cell.str "12:NaN AM" ∧
    formatExcelTime H (Cell.str s) ≠ Cell.str s ∧
    timeToMinutes (formatExcelTime H (Cell.str s)) = some none ∧
    ∀ k : Int, timeToMinutes (formatExcelTime H (Cell.str s)) ≠ some (some k) := by
  have hne : s ≠ "" := jsIncludes_ne_empty s "T" (by decide) hT
  have hf : formatExcelTime H (Cell.str s) = Cell.str "12:NaN AM" := by
    have hc : formatClock none = "12:NaN AM" := by decide
    simp [formatExcelTime, Cell.truthy, hne, hT, hp, hc]
  have ht : timeToMinutes (Cell.str "12:NaN AM") = some none := by decide
  refine ⟨hf, ?_, ?_, ?_⟩
  · rw [hf]
    intro e
    have hs : s = "12:NaN AM" := by
      injection e with e
      exact e.symm
    rw [hs] at hT
    exact absurd hT (by decide)
  · rw [hf, ht]
  · intro k
    rw [hf, ht]
    simp

/-- Witness of the amended C22: the text "TBD" under the sample host. -/
theorem formatExcelTime_invalid_witness :
    formatExcelTime sampleHost (Cell.str "TBD") = Cell.str "12:NaN AM" ∧
    timeToMinutes (formatExcelTime sampleHost (Cell.str "TBD")) = some none :=
  have h := formatExcelTime_invalid sampleHost "TBD" (by decide) (by decide)
  ⟨h.1, h.2.2.1⟩

end SAAGs
